import Mathlib

/-!
# Verification of the missionary synchronization and reconciliation engine

Shallow embedding of `src/mboard/missionaries.py` (class `Missionaries` and
dataclass `Missionary`), together with proofs about the embedded operations.

Modelling conventions:
* Python `datetime` values are modelled by their proleptic-Gregorian day
  ordinals (the same day-numbering as CPython's `date.toordinal`), and
  instants by integer seconds on that scale.
* Python exceptions are modelled by `Except Exn _` where `Exn` carries the
  exception class name and message; `f"{type(e).__name__}: {e}"` becomes
  `formatExn`.
* The photo directory is modelled as a list of filenames in scan order;
  the filesystem-dependent photo scan used inside a refresh cycle is an
  oracle `Int → Except Exn String` (one oracle per scan phase, since the
  directory may change between phases and a scan is ordinary I/O that may
  fail).
* String-splitting helpers from the Python code are re-implemented by
  structural recursion on `List Char` so that all definitions reduce in the
  kernel (`decide`/`rfl` witnesses).
-/

set_option autoImplicit false

/-- An exception value: Python class name and message
(`f"{type(e).__name__}: {e}"` uses exactly these two pieces). -/
structure Exn where
  kind : String
  msg : String
  deriving DecidableEq, Repr

/-- `f"{type(e).__name__}: {e}"` from `Missionaries.refresh`. -/
def formatExn (e : Exn) : String :=
  e.kind ++ ": " ++ e.msg

/-- The `Missionary` dataclass (missionaries.py lines 20-40).
`gender` is `"MALE"`, `"FEMALE"` or `""` for unset (the Python code stores
`None` for an absent gender; every comparison performed on the field --
equality tests against `"MALE"`/`"FEMALE"` and inequality between two
records -- treats the absent value like any other non-`"MALE"`/`"FEMALE"`
value, which `""` is). -/
structure Missionary where
  id : Int := 0
  name : String := ""
  sort_name : String := ""
  gender : String := ""
  couple : Bool := false
  senior : Bool := false
  mission : String := ""
  dates_serving : String := ""
  home_unit : String := ""
  image_path : String := ""
  photo_url : String := ""
  deriving DecidableEq, Repr

/-! ## Calendar arithmetic (CPython `datetime.date.toordinal`) -/

/-- Gregorian leap-year test, as in CPython's `datetime`. -/
def isLeap (y : Nat) : Bool :=
  y % 4 = 0 && (y % 100 != 0 || y % 400 = 0)

/-- Days in the months of a non-leap year. -/
def daysInMonthCommon : Nat → Nat
  | 1 => 31 | 2 => 28 | 3 => 31 | 4 => 30 | 5 => 31 | 6 => 30
  | 7 => 31 | 8 => 31 | 9 => 30 | 10 => 31 | 11 => 30 | 12 => 31
  | _ => 0

/-- Days in month `m` of year `y`. -/
def daysInMonth (y m : Nat) : Nat :=
  if m = 2 && isLeap y then 29 else daysInMonthCommon m

/-- Days in the given year before the first day of month `m`
(for `m` between 1 and 12). -/
def daysBeforeMonth (y m : Nat) : Nat :=
  (match m with
    | 1 => 0 | 2 => 31 | 3 => 59 | 4 => 90 | 5 => 120 | 6 => 151
    | 7 => 181 | 8 => 212 | 9 => 243 | 10 => 273 | 11 => 304 | _ => 334)
  + (if 2 < m && isLeap y then 1 else 0)

/-- Days before January 1st of year `y` (year 1 is the first year), i.e.
`date(y, 1, 1).toordinal() - 1` in CPython. -/
def daysBeforeYear (y : Nat) : Nat :=
  365 * (y - 1) + (y - 1) / 4 - (y - 1) / 100 + (y - 1) / 400

/-- `date(y, m, d).toordinal()` of CPython: day 1 is January 1 of year 1. -/
def toOrdinal (y m d : Nat) : Nat :=
  daysBeforeYear y + daysBeforeMonth y m + d

/-- A month-precision date, the result of parsing a `"Mon YYYY"` token
(CPython's `strptime(..., "%b %Y")` produces a `datetime` on the first day
of the month; equality and subtraction of two such datetimes only depend on
this pair). -/
structure MonthDate where
  month : Nat
  year : Nat
  deriving DecidableEq, Repr

/-- Day ordinal of the first day of the month (what the parsed
`"%b %Y"` datetime denotes). -/
def MonthDate.ordinal (p : MonthDate) : Nat :=
  toOrdinal p.year p.month 1

/-- `abs(d1 - d2)` in whole days for two first-of-month datetimes. -/
def distDays (p q : MonthDate) : Nat :=
  ((p.ordinal : Int) - q.ordinal).natAbs

/-! ## String utilities (structural re-implementations of the Python
string operations, over `List Char`) -/

/-- The C-locale month abbreviations used by `strftime("%b")`
(month 1 = `"Jan"`). -/
def monthAbbr : Nat → String
  | 1 => "Jan" | 2 => "Feb" | 3 => "Mar" | 4 => "Apr" | 5 => "May" | 6 => "Jun"
  | 7 => "Jul" | 8 => "Aug" | 9 => "Sep" | 10 => "Oct" | 11 => "Nov" | _ => "Dec"

/-- Month-abbreviation lookup, case-insensitive like CPython's `strptime`
(`%b` matches the abbreviation in any case). Returns the month number. -/
def monthFromAbbr (cs : List Char) : Option Nat :=
  let l := cs.map Char.toLower
  if l = "jan".data then some 1
  else if l = "feb".data then some 2
  else if l = "mar".data then some 3
  else if l = "apr".data then some 4
  else if l = "may".data then some 5
  else if l = "jun".data then some 6
  else if l = "jul".data then some 7
  else if l = "aug".data then some 8
  else if l = "sep".data then some 9
  else if l = "oct".data then some 10
  else if l = "nov".data then some 11
  else if l = "dec".data then some 12
  else none

/-- The decimal digit character for `n < 10`. -/
def digitChar (n : Nat) : Char :=
  match n with
  | 0 => '0' | 1 => '1' | 2 => '2' | 3 => '3' | 4 => '4'
  | 5 => '5' | 6 => '6' | 7 => '7' | 8 => '8' | _ => '9'

/-- Numeric value of a digit character. -/
def digitVal (c : Char) : Nat :=
  c.toNat - '0'.toNat

/-- Parse a list of characters as a decimal numeral (all characters must be
digits); returns `none` otherwise. -/
def parseDigits : List Char → Option Nat
  | [] => none
  | cs =>
    if cs.all Char.isDigit then
      some (cs.foldl (fun acc c => 10 * acc + digitVal c) 0)
    else none

/-- The four zero-padded decimal digits of a year (`strftime("%Y")` output
for years 1000-9999, the only years the engine's canonical strings use). -/
def yearDigits (y : Nat) : List Char :=
  [digitChar (y / 1000 % 10), digitChar (y / 100 % 10),
   digitChar (y / 10 % 10), digitChar (y % 10)]

/-- `strftime("%b %Y")`: the canonical `"Mon YYYY"` rendering. -/
def renderMonth (p : MonthDate) : String :=
  monthAbbr p.month ++ " " ++ String.mk (yearDigits p.year)

/-- Does the list start with the three characters `" - "`? -/
def sepAt (l : List Char) : Bool :=
  l.take 3 = [' ', '-', ' ']

/-- Split a character list at the first occurrence of `" - "`
(the separator of `ds.split(" - ")` in `_dates_serving_nearly_equal`).
Returns the pieces before and after that first occurrence. -/
def breakOnSep : List Char → Option (List Char × List Char)
  | [] => none
  | c :: t =>
    if sepAt (c :: t) then some ([], t.drop 2)
    else (breakOnSep t).map (fun p => (c :: p.1, p.2))

/-- Split a character list at the first space (used for the `"%b %Y"`
token structure). -/
def breakOnSpace : List Char → Option (List Char × List Char)
  | [] => none
  | c :: t =>
    if c = ' ' then some ([], t)
    else (breakOnSpace t).map (fun p => (c :: p.1, p.2))

/-! ## `_dates_serving_nearly_equal` (missionaries.py lines 302-329) -/

deriving instance DecidableEq for Except

/-- `start_str, end_str = ds.split(" - ")`: succeeds exactly when the split
yields two parts (otherwise CPython raises `ValueError` from the unpacking),
i.e. when the separator occurs exactly once. -/
def splitRange (ds : String) : Except Exn (String × String) :=
  match breakOnSep ds.data with
  | none => .error ⟨"ValueError", "not enough values to unpack"⟩
  | some (l, r) =>
    match breakOnSep r with
    | some _ => .error ⟨"ValueError", "too many values to unpack"⟩
    | none => .ok (String.mk l, String.mk r)

/-- `datetime.strptime(s, "%b %Y")`: a case-insensitive month abbreviation,
one space, and a four-digit year (`%Y` matches exactly four digits and the
year must not be 0). Raises `ValueError` otherwise. -/
def parseMonth (s : String) : Except Exn MonthDate :=
  match breakOnSpace s.data with
  | none => .error ⟨"ValueError", "time data does not match format"⟩
  | some (mon, yr) =>
    match monthFromAbbr mon with
    | none => .error ⟨"ValueError", "time data does not match format"⟩
    | some m =>
      if yr.length = 4 then
        match parseDigits yr with
        | none => .error ⟨"ValueError", "time data does not match format"⟩
        | some y =>
          if y = 0 then .error ⟨"ValueError", "year 0 is out of range"⟩
          else .ok ⟨m, y⟩
      else .error ⟨"ValueError", "time data does not match format"⟩

/-- `Missionaries._dates_serving_nearly_equal` (lines 302-329).
Exact string equality short-circuits; otherwise both strings are split on
`" - "` and the four `"Mon YYYY"` tokens parsed (in the CPython evaluation
order: split ds1, split ds2, start1, start2, end1, end2; any failure
raises). The result is the `≤ 32` days nearness disjunction with
`about_a_month = timedelta(days=32)`. -/
def datesServingNearlyEqual (ds1 ds2 : String) : Except Exn Bool :=
  if ds1 = ds2 then .ok true
  else
    match splitRange ds1 with
    | .error e => .error e
    | .ok (s1, e1) =>
      match splitRange ds2 with
      | .error e => .error e
      | .ok (s2, e2) =>
        match parseMonth s1 with
        | .error e => .error e
        | .ok start1 =>
          match parseMonth s2 with
          | .error e => .error e
          | .ok start2 =>
            match parseMonth e1 with
            | .error e => .error e
            | .ok end1 =>
              match parseMonth e2 with
              | .error e => .error e
              | .ok end2 =>
                if start1 = start2 ∧ distDays end1 end2 ≤ 32 then .ok true
                else .ok (end1 = end2 ∧ distDays start1 start2 ≤ 32 : Bool)

example : toOrdinal 1 1 1 = 1 := by decide
example : toOrdinal 2024 3 1 - toOrdinal 2024 2 1 = 29 := by decide
example : datesServingNearlyEqual "Aug 2023 - Dec 2024" "Aug 2023 - Jan 2025"
    = .ok true := by decide
example : datesServingNearlyEqual "Aug 2023 - Dec 2024" "Aug 2023 - Mar 2025"
    = .ok false := by decide
example : datesServingNearlyEqual "" "" = .ok true := by rfl
example : (datesServingNearlyEqual "" "Aug 2023 - Dec 2024").isOk = false := by decide

/-! ## Well-formed `"Mon YYYY - Mon YYYY"` strings

A well-formed range string is the canonical rendering of two month-precision
dates with months 1-12 and four-digit years, exactly what the normalizer's
`strftime("%b %Y")` produces. -/

/-- `"{start} - {end}"` with both bounds rendered by `strftime("%b %Y")`. -/
def renderRange (p q : MonthDate) : String :=
  renderMonth p ++ " - " ++ renderMonth q

/-- A month-date whose rendering is a canonical `"Mon YYYY"` token. -/
def ValidMonth (p : MonthDate) : Prop :=
  1 ≤ p.month ∧ p.month ≤ 12 ∧ 1000 ≤ p.year ∧ p.year ≤ 9999

instance (p : MonthDate) : Decidable (ValidMonth p) := by
  unfold ValidMonth; infer_instance

theorem digitChar_isDigit (n : Nat) : (digitChar n).isDigit = true := by
  unfold digitChar; split <;> decide

theorem digitChar_ne_dash (n : Nat) : digitChar n ≠ '-' := by
  unfold digitChar; split <;> decide

theorem digitChar_ne_space (n : Nat) : digitChar n ≠ ' ' := by
  unfold digitChar; split <;> decide

theorem digitVal_digitChar (n : Nat) (h : n < 10) :
    digitVal (digitChar n) = n := by
  interval_cases n <;> decide

theorem parseDigits_yearDigits (y : Nat) (h : y ≤ 9999) :
    parseDigits (yearDigits y) = some y := by
  have h1 : y / 1000 % 10 = y / 1000 := Nat.mod_eq_of_lt (by omega)
  simp only [yearDigits, parseDigits, List.all_cons, List.all_nil,
    digitChar_isDigit, Bool.and_self, if_pos, List.foldl]
  simp only [digitVal_digitChar _ (Nat.mod_lt _ (by omega))]
  congr 1
  omega

theorem monthAbbr_no_dash (m : Nat) : '-' ∉ (monthAbbr m).data := by
  unfold monthAbbr; split <;> decide

theorem monthAbbr_no_space (m : Nat) : ' ' ∉ (monthAbbr m).data := by
  unfold monthAbbr; split <;> decide

theorem monthFromAbbr_monthAbbr (m : Nat) (h1 : 1 ≤ m) (h2 : m ≤ 12) :
    monthFromAbbr (monthAbbr m).data = some m := by
  interval_cases m <;> decide

theorem yearDigits_no_dash (y : Nat) : '-' ∉ yearDigits y := by
  intro h
  simp only [yearDigits, List.mem_cons, List.not_mem_nil, or_false] at h
  rcases h with h | h | h | h <;> exact digitChar_ne_dash _ h.symm

theorem renderMonth_no_dash (p : MonthDate) : '-' ∉ (renderMonth p).data := by
  simp only [renderMonth, String.data_append]
  intro hmem
  rcases List.mem_append.1 hmem with h | h
  · rcases List.mem_append.1 h with h | h
    · exact monthAbbr_no_dash _ h
    · simp at h
  · exact yearDigits_no_dash _ h

theorem breakOnSpace_append (l r : List Char) (hl : ' ' ∉ l) :
    breakOnSpace (l ++ ' ' :: r) = some (l, r) := by
  induction l with
  | nil => simp [breakOnSpace]
  | cons c t ih =>
    have hc : c ≠ ' ' := fun h => hl (h ▸ List.mem_cons_self c t)
    have ht : ' ' ∉ t := fun h => hl (List.mem_cons_of_mem _ h)
    simp only [List.cons_append, breakOnSpace, if_neg hc, List.append_eq, ih ht,
      Option.map_some']

/-- `sepAt` can only fire where the list actually contains a dash. -/
theorem dash_mem_of_sepAt (l : List Char) (h : sepAt l = true) : '-' ∈ l := by
  simp only [sepAt, decide_eq_true_eq] at h
  exact List.take_subset 3 l (h ▸ (by decide : '-' ∈ [' ', '-', ' ']))

theorem sepAt_append_false (c : Char) (t r : List Char) (h : '-' ∉ c :: t) :
    sepAt (c :: (t ++ ' ' :: '-' :: ' ' :: r)) = false := by
  cases t with
  | nil =>
    simp only [List.nil_append, sepAt, List.take, decide_eq_false_iff_not]
    intro heq
    have := (List.cons.inj (List.cons.inj heq).2).1
    simp at this
  | cons d t' =>
    cases t' with
    | nil =>
      simp only [List.cons_append, List.nil_append, sepAt, List.take,
        decide_eq_false_iff_not]
      intro heq
      exact h ((List.cons.inj (List.cons.inj heq).2).1 ▸
        List.mem_cons_of_mem _ (List.mem_cons_self d []))
    | cons e t'' =>
      simp only [List.cons_append, sepAt, List.take, decide_eq_false_iff_not]
      intro heq
      exact h ((List.cons.inj (List.cons.inj heq).2).1 ▸
        List.mem_cons_of_mem _ (List.mem_cons_self d _))

theorem breakOnSep_append (l r : List Char) (hl : '-' ∉ l) :
    breakOnSep (l ++ ' ' :: '-' :: ' ' :: r) = some (l, r) := by
  induction l with
  | nil => rfl
  | cons c t ih =>
    have ht : '-' ∉ t := fun h => hl (List.mem_cons_of_mem _ h)
    rw [List.cons_append, breakOnSep, if_neg (by simp [sepAt_append_false c t r hl]),
      ih ht, Option.map_some']

theorem breakOnSep_none (r : List Char) (hr : '-' ∉ r) :
    breakOnSep r = none := by
  induction r with
  | nil => rfl
  | cons c t ih =>
    have ht : '-' ∉ t := fun h => hr (List.mem_cons_of_mem _ h)
    have hsep : sepAt (c :: t) = false := by
      cases hs : sepAt (c :: t)
      · rfl
      · exact absurd (dash_mem_of_sepAt _ hs) hr
    rw [breakOnSep, if_neg (by simp [hsep]), ih ht, Option.map_none']

theorem splitRange_renderRange (p q : MonthDate) :
    splitRange (renderRange p q) = .ok (renderMonth p, renderMonth q) := by
  have hdata : (renderRange p q).data
      = (renderMonth p).data ++ ' ' :: '-' :: ' ' :: (renderMonth q).data := by
    simp [renderRange, String.data_append]
  rw [splitRange, hdata, breakOnSep_append _ _ (renderMonth_no_dash p)]
  simp only [breakOnSep_none _ (renderMonth_no_dash q)]

theorem parseMonth_renderMonth (p : MonthDate) (hp : ValidMonth p) :
    parseMonth (renderMonth p) = .ok p := by
  obtain ⟨h1, h2, h3, h4⟩ := hp
  have hdata : (renderMonth p).data
      = (monthAbbr p.month).data ++ ' ' :: yearDigits p.year := by
    simp [renderMonth, String.data_append]
  rw [parseMonth, hdata, breakOnSpace_append _ _ (monthAbbr_no_space p.month)]
  simp only [monthFromAbbr_monthAbbr p.month h1 h2,
    parseDigits_yearDigits p.year h4,
    show (yearDigits p.year).length = 4 from rfl, eq_self_iff_true, if_true]
  rw [if_neg (show ¬ p.year = 0 by omega)]

theorem renderRange_inj (p1 q1 p2 q2 : MonthDate)
    (hp1 : ValidMonth p1) (hq1 : ValidMonth q1)
    (hp2 : ValidMonth p2) (hq2 : ValidMonth q2)
    (h : renderRange p1 q1 = renderRange p2 q2) : p1 = p2 ∧ q1 = q2 := by
  have hs := splitRange_renderRange p1 q1
  rw [h, splitRange_renderRange p2 q2] at hs
  have hmon : renderMonth p2 = renderMonth p1 ∧ renderMonth q2 = renderMonth q1 := by
    exact ⟨congrArg Prod.fst (Except.ok.inj hs), congrArg Prod.snd (Except.ok.inj hs)⟩
  have h1 := parseMonth_renderMonth p1 hp1
  rw [← hmon.1, parseMonth_renderMonth p2 hp2] at h1
  have h2 := parseMonth_renderMonth q1 hq1
  rw [← hmon.2, parseMonth_renderMonth q2 hq2] at h2
  exact ⟨(Except.ok.inj h1).symm, (Except.ok.inj h2).symm⟩

theorem distDays_comm (p q : MonthDate) : distDays p q = distDays q p := by
  simp only [distDays]
  omega

theorem distDays_self (p : MonthDate) : distDays p p = 0 := by
  simp [distDays]

/-- Value of `_dates_serving_nearly_equal` on two well-formed range strings:
the string-equality short-circuit, else the parsed nearness disjunction. -/
theorem datesServingNearlyEqual_render (p1 q1 p2 q2 : MonthDate)
    (hp1 : ValidMonth p1) (hq1 : ValidMonth q1)
    (hp2 : ValidMonth p2) (hq2 : ValidMonth q2) :
    datesServingNearlyEqual (renderRange p1 q1) (renderRange p2 q2)
      = .ok (decide (renderRange p1 q1 = renderRange p2 q2
          ∨ (p1 = p2 ∧ distDays q1 q2 ≤ 32)
          ∨ (q1 = q2 ∧ distDays p1 p2 ≤ 32))) := by
  by_cases heq : renderRange p1 q1 = renderRange p2 q2
  · simp [datesServingNearlyEqual, heq]
  · rw [datesServingNearlyEqual]
    simp only [if_neg heq, splitRange_renderRange,
      parseMonth_renderMonth p1 hp1, parseMonth_renderMonth p2 hp2,
      parseMonth_renderMonth q1 hq1, parseMonth_renderMonth q2 hq2]
    by_cases hstart : p1 = p2 <;> by_cases hdist : distDays q1 q2 ≤ 32 <;>
      by_cases hend : q1 = q2 <;> by_cases hdist2 : distDays p1 p2 ≤ 32 <;>
      (simp_all [distDays_self]; try (split <;> simp_all))

/-- C5: on well-formed `"Mon YYYY - Mon YYYY"` strings, the nearly-equal
comparison returns true for identical strings, and otherwise returns true
iff the start dates agree and the end dates are at most 32 days apart, or
the end dates agree and the start dates are at most 32 days apart; in
particular with equal starts it returns true whenever the ends are within
32 days (so also at exactly 32) and false whenever they are 33 or more days
apart.  It never raises on well-formed inputs. -/
theorem dates_serving_nearly_equal_spec (p1 q1 p2 q2 : MonthDate)
    (hp1 : ValidMonth p1) (hq1 : ValidMonth q1)
    (hp2 : ValidMonth p2) (hq2 : ValidMonth q2) :
    datesServingNearlyEqual (renderRange p1 q1) (renderRange p2 q2)
      = .ok (decide (renderRange p1 q1 = renderRange p2 q2
          ∨ (p1 = p2 ∧ distDays q1 q2 ≤ 32)
          ∨ (q1 = q2 ∧ distDays p1 p2 ≤ 32)))
    ∧ (p1 = p2 → distDays q1 q2 ≤ 32 →
        datesServingNearlyEqual (renderRange p1 q1) (renderRange p2 q2) = .ok true)
    ∧ (p1 = p2 → 33 ≤ distDays q1 q2 →
        datesServingNearlyEqual (renderRange p1 q1) (renderRange p2 q2) = .ok false) := by
  have hmain := datesServingNearlyEqual_render p1 q1 p2 q2 hp1 hq1 hp2 hq2
  refine ⟨hmain, fun hs hd => ?_, fun hs hd => ?_⟩
  · rw [hmain]
    simp [hs, hd]
  · subst hs
    rw [hmain]
    have h2 : ¬ (q1 = q2) := by
      intro h
      rw [h, distDays_self] at hd
      omega
    have h1 : ¬ renderRange p1 q1 = renderRange p1 q2 := by
      intro h
      exact h2 (renderRange_inj p1 q1 p1 q2 hp1 hq1 hp2 hq2 h).2
    simp [h1, h2]
    omega

/-- Witness for `dates_serving_nearly_equal_spec` at
`"Aug 2023 - Dec 2024"` vs `"Aug 2023 - Jan 2025"` (ends 31 days apart). -/
theorem dates_serving_nearly_equal_spec_witness :
    datesServingNearlyEqual (renderRange ⟨8, 2023⟩ ⟨12, 2024⟩)
        (renderRange ⟨8, 2023⟩ ⟨1, 2025⟩) = .ok true :=
  (dates_serving_nearly_equal_spec ⟨8, 2023⟩ ⟨12, 2024⟩ ⟨8, 2023⟩ ⟨1, 2025⟩
      (by decide) (by decide) (by decide) (by decide)).2.1 rfl (by decide)

/-- C10: the nearly-equal comparison is symmetric on well-formed
`"Mon YYYY - Mon YYYY"` strings. -/
theorem dates_serving_nearly_equal_symm (p1 q1 p2 q2 : MonthDate)
    (hp1 : ValidMonth p1) (hq1 : ValidMonth q1)
    (hp2 : ValidMonth p2) (hq2 : ValidMonth q2) :
    datesServingNearlyEqual (renderRange p1 q1) (renderRange p2 q2)
      = datesServingNearlyEqual (renderRange p2 q2) (renderRange p1 q1) := by
  rw [datesServingNearlyEqual_render p1 q1 p2 q2 hp1 hq1 hp2 hq2,
    datesServingNearlyEqual_render p2 q2 p1 q1 hp2 hq2 hp1 hq1]
  congr 1
  rw [decide_eq_decide]
  constructor
  · rintro (h | ⟨h1, h2⟩ | ⟨h1, h2⟩)
    · exact Or.inl h.symm
    · exact Or.inr (Or.inl ⟨h1.symm, distDays_comm q1 q2 ▸ h2⟩)
    · exact Or.inr (Or.inr ⟨h1.symm, distDays_comm p1 p2 ▸ h2⟩)
  · rintro (h | ⟨h1, h2⟩ | ⟨h1, h2⟩)
    · exact Or.inl h.symm
    · exact Or.inr (Or.inl ⟨h1.symm, distDays_comm q2 q1 ▸ h2⟩)
    · exact Or.inr (Or.inr ⟨h1.symm, distDays_comm p2 p1 ▸ h2⟩)

/-- Witness for `dates_serving_nearly_equal_symm` at
`"Aug 2023 - Dec 2024"` vs `"Sep 2023 - Dec 2024"`. -/
theorem dates_serving_nearly_equal_symm_witness :
    datesServingNearlyEqual (renderRange ⟨8, 2023⟩ ⟨12, 2024⟩)
        (renderRange ⟨9, 2023⟩ ⟨12, 2024⟩)
      = datesServingNearlyEqual (renderRange ⟨9, 2023⟩ ⟨12, 2024⟩)
        (renderRange ⟨8, 2023⟩ ⟨12, 2024⟩) :=
  dates_serving_nearly_equal_symm ⟨8, 2023⟩ ⟨12, 2024⟩ ⟨9, 2023⟩ ⟨12, 2024⟩
    (by decide) (by decide) (by decide) (by decide)

/-! ## `Missionaries.list_range` (missionaries.py lines 85-102)

The cached-list slice with wraparound offset.  `offset` and `limit` are the
non-negative integers the presentation layer passes;
`missionaries[offset : offset + limit]` on such arguments is
`(l.drop offset).take limit`.  The default pass-through filter is used (a
filter only removes elements before this computation and is irrelevant to
the claims). -/

def listRange (missionaries : List Missionary) (offset limit : Nat) :
    List Missionary × Nat :=
  ((missionaries.drop offset).take limit,
   if offset + limit < missionaries.length then offset + limit else 0)

/-- Repeatedly call `listRange`, feeding each returned `next_offset` back
in, until `next_offset` is 0; collect the returned slices in order.  `fuel`
bounds the recursion (the caller passes `l.length`, enough for any
positive `limit`). -/
def listRangeWalkAux (l : List Missionary) (limit : Nat) :
    Nat → Nat → List Missionary
  | fuel, offset =>
    let p := listRange l offset limit
    if p.2 = 0 then p.1
    else
      match fuel with
      | 0 => p.1
      | fuel' + 1 => p.1 ++ listRangeWalkAux l limit fuel' p.2

/-- All elements visited by the `next_offset` walk that starts at offset 0.  -/
def listRangeWalk (l : List Missionary) (limit : Nat) : List Missionary :=
  listRangeWalkAux l limit l.length 0

theorem listRangeWalkAux_drop (l : List Missionary) (limit : Nat)
    (hl : 1 ≤ limit) :
    ∀ fuel offset, l.length ≤ offset + fuel →
      listRangeWalkAux l limit fuel offset = l.drop offset := by
  intro fuel
  induction fuel with
  | zero =>
    intro offset hoff
    have hcase : ¬ offset + limit < l.length := by omega
    rw [listRangeWalkAux]
    simp only [listRange, if_neg hcase]
    simp only [if_true]
    rw [List.drop_eq_nil_of_le (by omega), List.take_nil]
  | succ fuel ih =>
    intro offset hoff
    by_cases hcase : offset + limit < l.length
    · have hne : ¬ (offset + limit = 0) := by omega
      rw [listRangeWalkAux]
      simp only [listRange, if_pos hcase]
      rw [if_neg hne, ih (offset + limit) (by omega),
        show l.drop (offset + limit) = (l.drop offset).drop limit by
          rw [List.drop_drop, Nat.add_comm]]
      exact List.take_append_drop limit (l.drop offset)
    · rw [listRangeWalkAux]
      simp only [listRange, if_neg hcase]
      simp only [if_true]
      rw [List.take_of_length_le (by simp only [List.length_drop]; omega)]

/-- A concrete nine-element cached list for the documented N=9, limit=3
case. -/
def nineMissionaries : List Missionary :=
  [{ id := 1 }, { id := 2 }, { id := 3 }, { id := 4 }, { id := 5 },
   { id := 6 }, { id := 7 }, { id := 8 }, { id := 9 }]

/-- C2 (amended): `list_range` returns the slice `[offset, offset+limit)`
with `next_offset = offset+limit` when that is below the list length and 0
otherwise; and for every limit of at least 1 the walk that starts at
offset 0 and follows `next_offset` until it returns 0 visits every element
exactly once, in order.  For N=9 and limit=3 the returned `next_offset`
sequence is 3, 6, 0. -/
theorem list_range_spec (l : List Missionary) (limit : Nat) (hl : 1 ≤ limit) :
    (∀ (xs : List Missionary) (offset lim : Nat),
        listRange xs offset lim
          = ((xs.drop offset).take lim,
             if offset + lim < xs.length then offset + lim else 0))
    ∧ listRangeWalk l limit = l
    ∧ (listRange nineMissionaries 0 3).2 = 3
    ∧ (listRange nineMissionaries 3 3).2 = 6
    ∧ (listRange nineMissionaries 6 3).2 = 0 := by
  refine ⟨fun xs offset lim => rfl, ?_, by decide, by decide, by decide⟩
  rw [listRangeWalk, listRangeWalkAux_drop l limit hl l.length 0 (by omega),
    List.drop_zero]

/-- Witness for `list_range_spec`: the N=9, limit=3 walk visits all nine
elements. -/
theorem list_range_spec_witness :
    listRangeWalk nineMissionaries 3 = nineMissionaries :=
  (list_range_spec nineMissionaries 3 (by decide)).2.1

/-- C2 counterexample: the claim quantifies over every limit, but for
limit 0 and a one-element cached list the call at offset 0 already returns
`next_offset = 0` with an empty slice, so the walk terminates having
visited no element -- not every element exactly once. -/
theorem list_range_counterexample :
    listRange [({ id := 1 } : Missionary)] 0 0 = ([], 0)
    ∧ listRangeWalk [({ id := 1 } : Missionary)] 0 = []
    ∧ ([] : List Missionary) ≠ [{ id := 1 }] := by decide

/-! ## `Missionaries._find_photo` (missionaries.py lines 331-343)

`next(self.photos_dir.glob(f"*-{missionary_id}.*"))`: the photo directory
is modelled as the list of its filenames in scan order.  A filename matches
the glob pattern `*-{id}.*` exactly when `-{id}.` occurs in it as a
substring: both stars match arbitrary, possibly empty, character runs, and
`pathlib.Path.glob` places no further restriction on the name (in
particular it matches dot-initial filenames too). -/

/-- The literal part `-{id}.` of the glob pattern (Python formats the id
with `str`, which is `toString` on our `Int` ids). -/
def photoKey (mid : Int) : List Char :=
  '-' :: (toString mid).data ++ ['.']

/-- Does `name` match the glob pattern `*-{mid}.*`? -/
def matchesPhoto (name : String) (mid : Int) : Bool :=
  decide (photoKey mid <:+: name.data)

/-- `Missionaries._find_photo`: the first matching filename, or `""` when
the glob iterator is empty (`StopIteration`). -/
def findPhoto (dir : List String) (mid : Int) : String :=
  match dir.find? (fun n => matchesPhoto n mid) with
  | some n => n
  | none => ""

theorem natDigitChar_isDigit (n : Nat) (h : n < 10) :
    (Nat.digitChar n).isDigit = true := by
  interval_cases n <;> decide

theorem toDigitsCore_all_digits (fuel : Nat) :
    ∀ (n : Nat) (acc : List Char), (∀ c ∈ acc, c.isDigit = true) →
      ∀ c ∈ Nat.toDigitsCore 10 fuel n acc, c.isDigit = true := by
  induction fuel with
  | zero =>
    intro n acc hacc
    simpa [Nat.toDigitsCore] using hacc
  | succ fuel ih =>
    intro n acc hacc c hc
    rw [Nat.toDigitsCore] at hc
    have hcons : ∀ c ∈ Nat.digitChar (n % 10) :: acc, c.isDigit = true := by
      intro d hd
      rcases List.mem_cons.1 hd with hd | hd
      · exact hd ▸ natDigitChar_isDigit _ (Nat.mod_lt _ (by omega))
      · exact hacc d hd
    by_cases h : n / 10 = 0
    · rw [if_pos h] at hc
      exact hcons c hc
    · rw [if_neg h] at hc
      exact ih (n / 10) (Nat.digitChar (n % 10) :: acc) hcons c hc

/-- Every character of the decimal representation of a natural number is a
digit. -/
theorem natRepr_all_digits (n : Nat) :
    ∀ c ∈ (Nat.repr n).data, c.isDigit = true :=
  toDigitsCore_all_digits (n + 1) n [] (by simp)

theorem isDigit_ne_dot {c : Char} (h : c.isDigit = true) : c ≠ '.' := by
  intro he
  subst he
  exact absurd h (by decide)

theorem isDigit_ne_dash {c : Char} (h : c.isDigit = true) : c ≠ '-' := by
  intro he
  subst he
  exact absurd h (by decide)

/-- If `dq ++ ['.']` is a prefix of `v ++ rest` and `v` contains no dot,
then `dq` absorbs all of `v`. -/
theorem prefix_absorb (v : List Char) :
    ∀ (dq : List Char) (rest : List Char), '.' ∉ v →
      (dq ++ ['.']) <+: (v ++ rest) →
      ∃ dq', dq = v ++ dq' ∧ (dq' ++ ['.']) <+: rest := by
  induction v with
  | nil =>
    intro dq rest _ h
    exact ⟨dq, rfl, h⟩
  | cons c v' ih =>
    intro dq rest hv h
    cases dq with
    | nil =>
      rw [List.nil_append, List.cons_append] at h
      obtain ⟨hc, -⟩ := List.cons_prefix_cons.1 h
      cases hc
      exact absurd (List.mem_cons_self _ _) hv
    | cons d dq'' =>
      rw [List.cons_append, List.cons_append] at h
      obtain ⟨hdc, htail⟩ := List.cons_prefix_cons.1 h
      have hv' : '.' ∉ v' := fun hm => hv (List.mem_cons_of_mem _ hm)
      obtain ⟨dq', hq, hp⟩ := ih dq'' rest hv' htail
      exact ⟨dq', by rw [hq, hdc, List.cons_append], hp⟩

/-- Core of the photo-id boundary guard: the pattern literal `-{q}.` of a
different id `q` never occurs in a filename `{stem}-{L}.{ext}` when the
stem has no dot and the extension has no dash. -/
theorem photoKey_never_matches (dq dL : List Char)
    (hdq : ∀ c ∈ dq, c.isDigit = true) (hdL : ∀ c ∈ dL, c.isDigit = true)
    (hne : dq ≠ dL) :
    ∀ (stem ext : List Char), '.' ∉ stem → '-' ∉ ext →
      ¬ (('-' :: dq ++ ['.']) <:+: (stem ++ '-' :: (dL ++ '.' :: ext))) := by
  intro stem
  induction stem with
  | nil =>
    intro ext hstem hext h
    rw [List.nil_append] at h
    rcases List.infix_cons_iff.1 h with h | h
    · obtain ⟨-, hpre⟩ := List.cons_prefix_cons.1 h
      have hdotL : '.' ∉ dL := fun hm => isDigit_ne_dot (hdL _ hm) rfl
      obtain ⟨dq', hq, hp⟩ := prefix_absorb dL dq ('.' :: ext) hdotL hpre
      cases dq' with
      | nil => exact hne (by simpa using hq)
      | cons e dq'' =>
        rw [List.cons_append] at hp
        have he : e = '.' := (List.cons_prefix_cons.1 hp).1
        have : e ∈ dq := hq ▸ List.mem_append_right dL (List.mem_cons_self e dq'')
        exact isDigit_ne_dot (hdq e this) he
    · have hmem : '-' ∈ dL ++ '.' :: ext :=
        h.subset (List.mem_cons_self '-' _)
      rcases List.mem_append.1 hmem with hm | hm
      · exact isDigit_ne_dash (hdL _ hm) rfl
      · rcases List.mem_cons.1 hm with hm | hm
        · simp at hm
        · exact hext hm
  | cons c stem' ih =>
    intro ext hstem hext h
    have hdot' : '.' ∉ stem' := fun hm => hstem (List.mem_cons_of_mem _ hm)
    rw [List.cons_append] at h
    rcases List.infix_cons_iff.1 h with h | h
    · obtain ⟨hdc, hpre⟩ := List.cons_prefix_cons.1 h
      have hdot' : '.' ∉ stem' := fun hm => hstem (List.mem_cons_of_mem _ hm)
      obtain ⟨dq', hq, hp⟩ := prefix_absorb stem' dq ('-' :: (dL ++ '.' :: ext)) hdot' hpre
      cases dq' with
      | nil => simp at hp
      | cons e dq'' =>
        rw [List.cons_append] at hp
        have he : e = '-' := (List.cons_prefix_cons.1 hp).1
        have : e ∈ dq := hq ▸ List.mem_append_right stem' (List.mem_cons_self e dq'')
        exact isDigit_ne_dash (hdq e this) he
    · exact ih ext hdot' hext h

theorem toString_natCastInt (L : Nat) : toString ((L : Nat) : Int) = Nat.repr L :=
  rfl

theorem matchesPhoto_guard (stem ext : String) (L q : Nat)
    (hne : Nat.repr q ≠ Nat.repr L)
    (hstem : '.' ∉ stem.data) (hext : '-' ∉ ext.data) :
    matchesPhoto (stem ++ "-" ++ toString (L : Int) ++ "." ++ ext) (q : Int)
      = false := by
  rw [toString_natCastInt]
  have hdata : (stem ++ "-" ++ Nat.repr L ++ "." ++ ext).data
      = stem.data ++ '-' :: ((Nat.repr L).data ++ '.' :: ext.data) := by
    simp [String.data_append]
  have hrepr_ne : (Nat.repr q).data ≠ (Nat.repr L).data := by
    intro h
    exact hne (show String.mk (Nat.repr q).data = String.mk (Nat.repr L).data
      from congrArg String.mk h)
  have hinf : ¬ (photoKey (q : Int) <:+:
      (stem ++ "-" ++ Nat.repr L ++ "." ++ ext).data) := by
    rw [hdata]
    exact photoKey_never_matches (Nat.repr q).data (Nat.repr L).data
      (natRepr_all_digits q) (natRepr_all_digits L) hrepr_ne
      stem.data ext.data hstem hext
  rw [matchesPhoto]
  exact decide_eq_false hinf

theorem matchesPhoto_self (stem ext : String) (L : Nat) :
    matchesPhoto (stem ++ "-" ++ toString (L : Int) ++ "." ++ ext) (L : Int)
      = true := by
  rw [toString_natCastInt]
  have hdata : (stem ++ "-" ++ Nat.repr L ++ "." ++ ext).data
      = stem.data ++ '-' :: ((Nat.repr L).data ++ '.' :: ext.data) := by
    simp [String.data_append]
  have hinf : photoKey (L : Int) <:+:
      (stem ++ "-" ++ Nat.repr L ++ "." ++ ext).data := by
    rw [hdata]
    refine ⟨stem.data, ext.data, ?_⟩
    simp [photoKey, toString_natCastInt]
  rw [matchesPhoto]
  exact decide_eq_true hinf

theorem findPhoto_first (mid : Int) :
    ∀ (pre : List String) (n : String) (post : List String),
      matchesPhoto n mid = true → (∀ m ∈ pre, matchesPhoto m mid = false) →
      findPhoto (pre ++ n :: post) mid = n := by
  intro pre
  induction pre with
  | nil =>
    intro n post hm _
    rw [List.nil_append, findPhoto,
      @List.find?_cons_of_pos String (fun s => matchesPhoto s mid) n post hm]
  | cons a pre' ih =>
    intro n post hm hpre
    have ha : matchesPhoto a mid = false := hpre a (List.mem_cons_self a pre')
    have := ih n post hm (fun m hm' => hpre m (List.mem_cons_of_mem _ hm'))
    rw [findPhoto] at this ⊢
    rw [List.cons_append,
      @List.find?_cons_of_neg String (fun s => matchesPhoto s mid) a
        (pre' ++ n :: post) (by simp [ha])]
    exact this

/-- C9: `_find_photo` returns the first filename in the photo directory
matching the glob pattern `*-{id}.*` and the empty string when none
matches; the id is anchored between the literal `-` and `.` of the
pattern, so a file stored for a different (for instance longer) identifier
is never matched: for any stem without a dot and extension without a dash,
`{stem}-{L}.{ext}` matches query `q` only when `q = L` (and always matches
`L` itself).  In particular a query for id 123 never returns the file
`thompson-123456789.jpg` stored for id 123456789, while a query for
123456789 does; like `pathlib.Path.glob`, a matching dot-initial filename
is returned as well. -/
theorem find_photo_spec (dir : List String) (mid : Int) :
    ((∀ n ∈ dir, matchesPhoto n mid = false) → findPhoto dir mid = "")
    ∧ (∀ (pre : List String) (n : String) (post : List String),
        dir = pre ++ n :: post → matchesPhoto n mid = true →
        (∀ m ∈ pre, matchesPhoto m mid = false) → findPhoto dir mid = n)
    ∧ (∀ (stem ext : String) (L q : Nat), Nat.repr q ≠ Nat.repr L →
        '.' ∉ stem.data → '-' ∉ ext.data →
        matchesPhoto (stem ++ "-" ++ toString (L : Int) ++ "." ++ ext) (q : Int)
          = false)
    ∧ (∀ (stem ext : String) (L : Nat),
        matchesPhoto (stem ++ "-" ++ toString (L : Int) ++ "." ++ ext) (L : Int)
          = true)
    ∧ findPhoto ["thompson-123456789.jpg"] 123 = ""
    ∧ findPhoto ["thompson-123456789.jpg"] 123456789 = "thompson-123456789.jpg"
    ∧ findPhoto [".hidden-123.jpg"] 123 = ".hidden-123.jpg" := by
  refine ⟨?_, ?_, ?_, ?_, by decide, by decide, by decide⟩
  · intro h
    have hnone : List.find? (fun n => matchesPhoto n mid) dir = none :=
      List.find?_eq_none.2 (fun x hx => by simp [h x hx])
    rw [findPhoto, hnone]
  · intro pre n post hdir hm hpre
    rw [hdir]
    exact findPhoto_first mid pre n post hm hpre
  · intro stem ext L q hne hstem hext
    exact matchesPhoto_guard stem ext L q hne hstem hext
  · intro stem ext L
    exact matchesPhoto_self stem ext L

/-- Witness for `find_photo_spec`: the single file `ng-77.png` is returned
for id 77. -/
theorem find_photo_spec_witness :
    findPhoto ["ng-77.png"] 77 = "ng-77.png" :=
  (find_photo_spec ["ng-77.png"] 77).2.1 [] "ng-77.png" [] rfl (by decide)
    (by simp)

/-! ## `Missionaries._merge_couple_missionaries` (missionaries.py lines 240-282)

The Python loop iterates the list by position, skips entries whose id is in
`merged_ids`, and for each senior entry scans the *whole live list* (which
contains the in-place mutations made by earlier iterations) for the first
companion satisfying the generator's conditions.  The loop state is
therefore modelled as the current list (updated with `List.set` where
Python mutates in place), the index, the consumed-id set, and the output
accumulator.  The `events` component is ghost instrumentation recording
each (survivor, companion) match as it happens; it does not influence the
computation.  The recursion is structured on an explicit fuel argument
(the wrapper passes the list length, which is exactly the number of
iterations). -/

/-- Python `str.split()` then selection: whitespace-separated words of a
name (empty runs dropped). -/
def splitWsAux : List Char → List Char → List (List Char)
  | [], acc => if acc = [] then [] else [acc.reverse]
  | c :: t, acc =>
    if c.isWhitespace then
      if acc = [] then splitWsAux t [] else acc.reverse :: splitWsAux t []
    else splitWsAux t (c :: acc)

/-- `name.split()`. -/
def pySplitWs (s : String) : List String :=
  (splitWsAux s.data []).map String.mk

/-- `Missionaries._last_name` (lines 284-291). -/
def lastName (name : String) : String :=
  match (pySplitWs name).getLast? with
  | some l => l
  | none => ""

/-- `" ".join(words)`. -/
def joinSpace : List String → String
  | [] => ""
  | [x] => x
  | x :: xs => x ++ " " ++ joinSpace xs

/-- `Missionaries._omit_last_name` (lines 293-300). -/
def omitLastName (name : String) : String :=
  joinSpace (pySplitWs name).dropLast

/-- The lazily-evaluated conditions of the companion generator that come
before the date comparison (lines 254-259).  The
`_last_name(m.name) == _last_name(m.name)` conjunct compares a value with
itself in the source and is therefore always true; it is kept verbatim. -/
def companionPre (x m : Missionary) : Bool :=
  m.senior && decide (m.id ≠ x.id) && decide (m.gender ≠ x.gender)
    && decide (m.mission = x.mission) && decide (m.home_unit = x.home_unit)
    && decide (lastName m.name = lastName m.name)

/-- `next((m for m in missionaries if ...), None)`: the first entry
satisfying all conditions; the date comparison can raise, which aborts the
whole merge. -/
def findCompanion (x : Missionary) : List Missionary → Except Exn (Option Missionary)
  | [] => .ok none
  | m :: t =>
    if companionPre x m then
      match datesServingNearlyEqual m.dates_serving x.dates_serving with
      | .error e => .error e
      | .ok true => .ok (some m)
      | .ok false => findCompanion x t
    else findCompanion x t

/-- The in-place mutation of the surviving entry on a match
(lines 266-279): a male survivor keeps his record and gets the combined
name; a female survivor receives every field of the male companion
(`asdict`/`setattr` loop) and then the combined name.  `couple` is set in
both cases. -/
def mergeAt (x c : Missionary) : Missionary :=
  if x.gender = "MALE" then
    { x with name := omitLastName x.name ++ " & " ++ c.name, couple := true }
  else
    { c with name := omitLastName c.name ++ " & " ++ x.name, couple := true }

/-- One pass of the merge loop from index `k` with the given state. -/
def mergeLoopF : Nat → List Missionary → Nat → List Int → List Missionary →
    List (Missionary × Missionary) →
    Except Exn (List Missionary × List (Missionary × Missionary))
  | 0, _, _, _, out, events => .ok (out, events)
  | fuel + 1, entries, k, merged, out, events =>
    if hk : k < entries.length then
      if entries[k].id ∈ merged then
        mergeLoopF fuel entries (k + 1) merged out events
      else if entries[k].senior then
        match findCompanion entries[k] entries with
        | .error e => .error e
        | .ok (some c) =>
          mergeLoopF fuel (entries.set k (mergeAt entries[k] c)) (k + 1)
            (c.id :: merged) (out ++ [mergeAt entries[k] c])
            (events ++ [(entries[k], c)])
        | .ok none =>
          mergeLoopF fuel entries (k + 1) merged (out ++ [entries[k]]) events
      else mergeLoopF fuel entries (k + 1) merged (out ++ [entries[k]]) events
    else .ok (out, events)

/-- `Missionaries._merge_couple_missionaries`: the merged output list. -/
def mergeCoupleMissionaries (missionaries : List Missionary) :
    Except Exn (List Missionary) :=
  (mergeLoopF missionaries.length missionaries 0 [] [] []).map (fun p => p.1)

/-- Ghost observation: the (survivor, companion) pairs of the run, in match
order. -/
def mergeCoupleEvents (missionaries : List Missionary) :
    Except Exn (List (Missionary × Missionary)) :=
  (mergeLoopF missionaries.length missionaries 0 [] [] []).map (fun p => p.2)

example : lastName "Elder John Smith" = "Smith" := by decide
example : omitLastName "Elder John Smith" = "Elder John" := by decide

/-! ### Documented merge inputs (tests/mboard_test/missionaries_test.py) -/

/-- Siblings serving in different missions (negative case 1). -/
def negCaseMissions : List Missionary :=
  [{ id := 0, name := "Elder A Ng", sort_name := "Ng, A", gender := "MALE",
     senior := true, mission := "Mission1", home_unit := "Unit",
     dates_serving := "Mar 2025 - Sep 2026" },
   { id := 1, name := "Sister B Ng", sort_name := "Ng, B", gender := "FEMALE",
     senior := true, mission := "Mission2", home_unit := "Unit",
     dates_serving := "Mar 2025 - Sep 2026" }]

/-- Siblings from different wards (negative case 2). -/
def negCaseWards : List Missionary :=
  [{ id := 0, name := "Elder A Ng", sort_name := "Ng, A", gender := "MALE",
     senior := true, mission := "Mission", home_unit := "Unit1",
     dates_serving := "Mar 2025 - Mar 2027" },
   { id := 1, name := "Sister B Ng", sort_name := "Ng, B", gender := "FEMALE",
     senior := true, mission := "Mission", home_unit := "Unit2",
     dates_serving := "Mar 2025 - Sep 2026" }]

/-- Twins called to the same mission (negative case 3, same gender). -/
def negCaseTwins : List Missionary :=
  [{ id := 0, name := "Sister A Ng", sort_name := "Ng, A", gender := "FEMALE",
     senior := true, mission := "Mission", home_unit := "Unit",
     dates_serving := "Mar 2025 - Sep 2026" },
   { id := 1, name := "Sister B Ng", sort_name := "Ng, B", gender := "FEMALE",
     senior := true, mission := "Mission", home_unit := "Unit",
     dates_serving := "Mar 2025 - Sep 2026" }]

/-- Fraternal twins called to the same mission (negative case 4,
far-apart service ranges). -/
def negCaseFraternal : List Missionary :=
  [{ id := 0, name := "Elder A Ng", sort_name := "Ng, A", gender := "MALE",
     senior := true, mission := "Mission", home_unit := "Unit",
     dates_serving := "Mar 2025 - Mar 2027" },
   { id := 1, name := "Sister B Ng", sort_name := "Ng, B", gender := "FEMALE",
     senior := true, mission := "Mission", home_unit := "Unit",
     dates_serving := "Mar 2025 - Sep 2026" }]

example : mergeCoupleMissionaries negCaseMissions = .ok negCaseMissions := by decide
example : mergeCoupleMissionaries negCaseWards = .ok negCaseWards := by decide
example : mergeCoupleMissionaries negCaseTwins = .ok negCaseTwins := by decide
example : mergeCoupleMissionaries negCaseFraternal = .ok negCaseFraternal := by decide

/-- First senior elder of the double-consumption scenario. -/
def elderAl : Missionary :=
  { id := 1, name := "Elder Al Ng", sort_name := "Ng, Al", gender := "MALE",
    senior := true, mission := "Mission", home_unit := "Unit",
    dates_serving := "Jul 2024 - Jul 2025" }

/-- The single senior sister of the double-consumption scenario. -/
def sisterBo : Missionary :=
  { id := 2, name := "Sister Bo Ng", sort_name := "Ng, Bo", gender := "FEMALE",
    senior := true, mission := "Mission", home_unit := "Unit",
    dates_serving := "Jul 2024 - Jul 2025" }

/-- Second senior elder of the double-consumption scenario. -/
def elderCy : Missionary :=
  { id := 3, name := "Elder Cy Oz", sort_name := "Oz, Cy", gender := "MALE",
    senior := true, mission := "Mission", home_unit := "Unit",
    dates_serving := "Jul 2024 - Jul 2025" }

example :
    mergeCoupleEvents [elderAl, sisterBo, elderCy]
      = .ok [(elderAl, sisterBo), (elderCy, sisterBo)] := by decide
example :
    mergeCoupleMissionaries [elderAl, sisterBo, elderCy]
      = .ok [{ elderAl with name := "Elder Al & Sister Bo Ng", couple := true },
             { elderCy with name := "Elder Cy & Sister Bo Ng", couple := true }] := by
  decide

/-! ### Facts about the companion search and the merge mutation -/

theorem mergeAt_couple (x c : Missionary) : (mergeAt x c).couple = true := by
  rw [mergeAt]
  split <;> rfl

theorem mergeAt_id (x c : Missionary) :
    (mergeAt x c).id = x.id ∨ (mergeAt x c).id = c.id := by
  rw [mergeAt]
  split
  · exact Or.inl rfl
  · exact Or.inr rfl

theorem findCompanion_ok_some (x : Missionary) :
    ∀ (l : List Missionary) (c : Missionary),
      findCompanion x l = .ok (some c) →
      companionPre x c = true
        ∧ datesServingNearlyEqual c.dates_serving x.dates_serving = .ok true
        ∧ c ∈ l := by
  intro l
  induction l with
  | nil => intro c h; exact absurd h (by simp [findCompanion])
  | cons m t ih =>
    intro c h
    rw [findCompanion] at h
    by_cases hpre : companionPre x m = true
    · rw [if_pos hpre] at h
      cases hd : datesServingNearlyEqual m.dates_serving x.dates_serving with
      | error e => rw [hd] at h; cases h
      | ok b =>
        cases b with
        | true =>
          rw [hd] at h
          cases h
          exact ⟨hpre, hd, List.mem_cons_self m t⟩
        | false =>
          rw [hd] at h
          obtain ⟨h1, h2, h3⟩ := ih c h
          exact ⟨h1, h2, List.mem_cons_of_mem m h3⟩
    · rw [if_neg hpre] at h
      obtain ⟨h1, h2, h3⟩ := ih c h
      exact ⟨h1, h2, List.mem_cons_of_mem m h3⟩

theorem findCompanion_ok_none (x : Missionary) :
    ∀ (l : List Missionary), findCompanion x l = .ok none →
      ∀ m ∈ l, companionPre x m = false
        ∨ datesServingNearlyEqual m.dates_serving x.dates_serving = .ok false := by
  intro l
  induction l with
  | nil => intro _ m hm; exact absurd hm (List.not_mem_nil m)
  | cons a t ih =>
    intro h m hm
    rw [findCompanion] at h
    by_cases hpre : companionPre x a = true
    · rw [if_pos hpre] at h
      cases hd : datesServingNearlyEqual a.dates_serving x.dates_serving with
      | error e => rw [hd] at h; cases h
      | ok b =>
        cases b with
        | true => rw [hd] at h; cases h
        | false =>
          rw [hd] at h
          rcases List.mem_cons.1 hm with hm | hm
          · exact hm ▸ Or.inr hd
          · exact ih h m hm
    · rw [if_neg hpre] at h
      rcases List.mem_cons.1 hm with hm | hm
      · exact hm ▸ Or.inl (by simpa using hpre)
      · exact ih h m hm

/-- The value (not the error) of the nearly-equal comparison is symmetric
in its two arguments. -/
theorem datesServingNearlyEqual_ok_symm (a b : String) (v : Bool)
    (h : datesServingNearlyEqual a b = .ok v) :
    datesServingNearlyEqual b a = .ok v := by
  by_cases hab : a = b
  · subst hab
    exact h
  · have hba : ¬ b = a := fun hh => hab hh.symm
    rw [datesServingNearlyEqual, if_neg hab] at h
    rw [datesServingNearlyEqual, if_neg hba]
    cases h1 : splitRange a with
    | error e =>
      simp only [h1] at h
      exact Except.noConfusion h
    | ok r1 =>
      obtain ⟨s1, e1⟩ := r1
      simp only [h1] at h
      cases h2 : splitRange b with
      | error e =>
      simp only [h2] at h
      exact Except.noConfusion h
      | ok r2 =>
        obtain ⟨s2, e2⟩ := r2
        simp only [h2] at h
        cases h3 : parseMonth s1 with
        | error e =>
      simp only [h3] at h
      exact Except.noConfusion h
        | ok start1 =>
          simp only [h3] at h
          cases h4 : parseMonth s2 with
          | error e =>
      simp only [h4] at h
      exact Except.noConfusion h
          | ok start2 =>
            simp only [h4] at h
            cases h5 : parseMonth e1 with
            | error e =>
      simp only [h5] at h
      exact Except.noConfusion h
            | ok end1 =>
              simp only [h5] at h
              cases h6 : parseMonth e2 with
              | error e =>
      simp only [h6] at h
      exact Except.noConfusion h
              | ok end2 =>
                simp only [h6] at h
                simp only [h1, h2, h3, h4, h5, h6]
                by_cases c1 : start1 = start2 ∧ distDays end1 end2 ≤ 32
                · rw [if_pos c1] at h
                  rw [if_pos ⟨c1.1.symm, distDays_comm end2 end1 ▸ c1.2⟩]
                  exact h
                · rw [if_neg c1] at h
                  by_cases c2 : start2 = start1 ∧ distDays end2 end1 ≤ 32
                  · exact absurd ⟨c2.1.symm, distDays_comm end1 end2 ▸ c2.2⟩ c1
                  · rw [if_neg c2]
                    rw [← h]
                    congr 1
                    rw [decide_eq_decide]
                    constructor
                    · rintro ⟨hh1, hh2⟩
                      exact ⟨hh1.symm, distDays_comm start1 start2 ▸ hh2⟩
                    · rintro ⟨hh1, hh2⟩
                      exact ⟨hh1.symm, distDays_comm start2 start1 ▸ hh2⟩

/-- Distinct positions in a list with `Nodup` ids hold records with
distinct ids. -/
theorem nodup_id_index (l0 : List Missionary)
    (h : (l0.map (fun m => m.id)).Nodup) (i j : Nat) (a b : Missionary)
    (ha : l0[i]? = some a) (hb : l0[j]? = some b) (hid : a.id = b.id) :
    i = j := by
  have hi : i < l0.length := by
    by_contra hc
    rw [List.getElem?_eq_none (by omega)] at ha
    cases ha
  have hj : j < l0.length := by
    by_contra hc
    rw [List.getElem?_eq_none (by omega)] at hb
    cases hb
  have hi' : i < (l0.map (fun m => m.id)).length := by simpa using hi
  have hj' : j < (l0.map (fun m => m.id)).length := by simpa using hj
  have hmap : (l0.map (fun m => m.id))[i] = (l0.map (fun m => m.id))[j] := by
    rw [List.getElem_map, List.getElem_map]
    rw [List.getElem?_eq_getElem hi] at ha
    rw [List.getElem?_eq_getElem hj] at hb
    rw [Option.some.inj ha, Option.some.inj hb]
    exact hid
  exact (List.Nodup.getElem_inj_iff h).1 hmap

/-- Unfolding of the pre-date companion conditions (the self-comparison of
last names is always true and disappears). -/
theorem companionPre_fields (x m : Missionary) :
    companionPre x m = true ↔
      m.senior = true ∧ m.id ≠ x.id ∧ m.gender ≠ x.gender
        ∧ m.mission = x.mission ∧ m.home_unit = x.home_unit := by
  simp [companionPre, and_assoc]

/-- Invariant of the merge loop relating the live state to the original
input list `l0`: the list keeps its length; positions not yet processed
are untouched; processed positions hold either their original record or a
couple record; every live record either keeps an original id at its
position or carries the id of a consumed companion; every standalone
(couple-free) output record is an untouched original whose own companion
search failed on the unprocessed suffix and whose id has not been matched
as a companion; and every consumed companion id is in the merged set. -/
abbrev MergeInv (l0 entries : List Missionary) (k : Nat) (merged : List Int)
    (out : List Missionary) (events : List (Missionary × Missionary)) : Prop :=
  entries.length = l0.length
  ∧ (∀ t : Nat, k ≤ t → entries[t]? = l0[t]?)
  ∧ (∀ (t : Nat) (x : Missionary),
      entries[t]? = some x → l0[t]? = some x ∨ x.couple = true)
  ∧ (∀ (t : Nat) (x : Missionary), entries[t]? = some x →
      (∃ y : Missionary, l0[t]? = some y ∧ y.id = x.id)
        ∨ x.id ∈ events.map (fun ev => ev.2.id))
  ∧ (∀ x ∈ out, x.couple = false →
      ∃ t, t < k ∧ l0[t]? = some x ∧ entries[t]? = some x
        ∧ (x.senior = true → ∀ u y, t ≤ u → l0[u]? = some y →
            ¬ (companionPre x y = true
               ∧ datesServingNearlyEqual y.dates_serving x.dates_serving
                   = .ok true))
        ∧ (∀ ev ∈ events, ev.2.id ≠ x.id))
  ∧ (∀ ev ∈ events, ev.2.id ∈ merged)

/-- Main preservation argument: in a completed run from an invariant
state, no standalone output record's id was ever consumed as a companion.
The crux (the `some c` branch) shows that a newly matched companion cannot
be a previously emitted standalone record: that record's own earlier
search already scanned the survivor's still-untouched position, and the
match conditions are symmetric. -/
theorem mergeLoopF_consumed_not_standalone (l0 : List Missionary)
    (hids : (l0.map (fun m => m.id)).Nodup) :
    ∀ (fuel : Nat) (entries : List Missionary) (k : Nat) (merged : List Int)
      (out : List Missionary) (events : List (Missionary × Missionary))
      (fout : List Missionary) (fevents : List (Missionary × Missionary)),
      MergeInv l0 entries k merged out events →
      mergeLoopF fuel entries k merged out events = .ok (fout, fevents) →
      ∀ x ∈ fout, x.couple = false → ∀ ev ∈ fevents, ev.2.id ≠ x.id := by
  intro fuel
  induction fuel with
  | zero =>
    intro entries k merged out events fout fevents hinv hrun
    obtain ⟨ha, hb, hc, hd, he, hg⟩ := hinv
    rw [mergeLoopF] at hrun
    simp only [Except.ok.injEq, Prod.mk.injEq] at hrun
    obtain ⟨h1, h2⟩ := hrun
    subst h1
    subst h2
    intro x hx hcf ev hev
    obtain ⟨t, ht, hl0t, hent, hsencl, hevcl⟩ := he x hx hcf
    exact hevcl ev hev
  | succ fuel ih =>
    intro entries k merged out events fout fevents hinv hrun
    obtain ⟨ha, hb, hc, hd, he, hg⟩ := hinv
    rw [mergeLoopF] at hrun
    by_cases hk : k < entries.length
    case neg =>
      rw [dif_neg hk] at hrun
      simp only [Except.ok.injEq, Prod.mk.injEq] at hrun
      obtain ⟨h1, h2⟩ := hrun
      subst h1
      subst h2
      intro x hx hcf ev hev
      obtain ⟨t, ht, hl0t, hent, hsencl, hevcl⟩ := he x hx hcf
      exact hevcl ev hev
    case pos =>
      rw [dif_pos hk] at hrun
      have hxk : entries[k]? = some entries[k] := List.getElem?_eq_getElem hk
      have hl0k : l0[k]? = some entries[k] :=
        (hb k (Nat.le_refl k)).symm.trans hxk
      by_cases hmem : entries[k].id ∈ merged
      · rw [if_pos hmem] at hrun
        refine ih entries (k + 1) merged out events fout fevents
          ⟨ha, fun t ht => hb t (by omega), hc, hd, ?_, hg⟩ hrun
        intro x hx hcf
        obtain ⟨t, ht, rest⟩ := he x hx hcf
        exact ⟨t, by omega, rest⟩
      · rw [if_neg hmem] at hrun
        by_cases hsen : entries[k].senior = true
        · rw [if_pos hsen] at hrun
          cases hfind : findCompanion entries[k] entries with
          | error e =>
            rw [hfind] at hrun
            exact Except.noConfusion hrun
          | ok oc =>
            cases oc with
            | none =>
              rw [hfind] at hrun
              refine ih entries (k + 1) merged (out ++ [entries[k]]) events
                fout fevents ⟨ha, fun t ht => hb t (by omega), hc, hd, ?_, hg⟩
                hrun
              intro x hx hcf
              rcases List.mem_append.1 hx with hx | hx
              · obtain ⟨t, ht, rest⟩ := he x hx hcf
                exact ⟨t, by omega, rest⟩
              · have hxx : x = entries[k] := by simpa using hx
                subst hxx
                refine ⟨k, by omega, hl0k, hxk, ?_, ?_⟩
                · intro _ u y hu hy hcond
                  have hyent : entries[u]? = some y := (hb u hu).trans hy
                  have hymem : y ∈ entries := List.getElem?_mem hyent
                  rcases findCompanion_ok_none entries[k] entries hfind y hymem
                    with hbad | hbad
                  · rw [hcond.1] at hbad
                    exact Bool.noConfusion hbad
                  · rw [hcond.2] at hbad
                    have := Except.ok.inj hbad
                    exact Bool.noConfusion this
                · intro ev hev heq
                  exact hmem (heq ▸ hg ev hev)
            | some c =>
              rw [hfind] at hrun
              obtain ⟨hcp, hcd, hcm⟩ :=
                findCompanion_ok_some entries[k] entries c hfind
              obtain ⟨jc, hjclt, hjceq⟩ := List.getElem_of_mem hcm
              have hcj : entries[jc]? = some c := by
                rw [List.getElem?_eq_getElem hjclt, hjceq]
              obtain ⟨hcsen, hcid, hcgen, hcmis, hcunit⟩ :=
                (companionPre_fields entries[k] c).1 hcp
              refine ih (entries.set k (mergeAt entries[k] c)) (k + 1)
                (c.id :: merged) (out ++ [mergeAt entries[k] c])
                (events ++ [(entries[k], c)]) fout fevents
                ⟨by simpa using ha, ?_, ?_, ?_, ?_, ?_⟩ hrun
              · intro t ht
                rw [List.getElem?_set_ne (by omega)]
                exact hb t (by omega)
              · intro t x' hx'
                by_cases htk : k = t
                · subst htk
                  rw [List.getElem?_set_self hk] at hx'
                  exact Or.inr ((Option.some.inj hx') ▸ mergeAt_couple entries[k] c)
                · rw [List.getElem?_set_ne htk] at hx'
                  exact hc t x' hx'
              · intro t x' hx'
                by_cases htk : k = t
                · subst htk
                  rw [List.getElem?_set_self hk] at hx'
                  have hx'' := Option.some.inj hx'
                  rcases mergeAt_id entries[k] c with hid | hid
                  · exact Or.inl ⟨entries[k], hl0k, by rw [← hx'', hid]⟩
                  · refine Or.inr ?_
                    rw [List.map_append]
                    refine List.mem_append_right _ ?_
                    simp [← hx'', hid]
                · rw [List.getElem?_set_ne htk] at hx'
                  rcases hd t x' hx' with hleft | hright
                  · exact Or.inl hleft
                  · refine Or.inr ?_
                    rw [List.map_append]
                    exact List.mem_append_left _ hright
              · intro x' hx' hcf
                rcases List.mem_append.1 hx' with hx' | hx'
                · obtain ⟨t, ht, hl0t, hent, hsencl, hevcl⟩ := he x' hx' hcf
                  refine ⟨t, by omega, hl0t, ?_, hsencl, ?_⟩
                  · rw [List.getElem?_set_ne (by omega)]
                    exact hent
                  · intro ev hev
                    rcases List.mem_append.1 hev with hev | hev
                    · exact hevcl ev hev
                    · have hevx : ev = (entries[k], c) := by simpa using hev
                      subst hevx
                      intro hidcx
                      rcases hc jc c hcj with hcl0 | hcc
                      · have hjct : jc = t :=
                          nodup_id_index l0 hids jc t c x' hcl0 hl0t hidcx
                        subst hjct
                        have hcx : c = x' := by
                          rw [hl0t] at hcl0
                          exact (Option.some.inj hcl0).symm
                        subst hcx
                        have hsenx : c.senior = true := hcsen
                        refine hsencl hsenx k entries[k] (by omega) hl0k ⟨?_, ?_⟩
                        · refine (companionPre_fields c entries[k]).2
                            ⟨hsen, fun hh => hcid hh.symm,
                             fun hh => hcgen hh.symm, hcmis.symm, hcunit.symm⟩
                        · exact datesServingNearlyEqual_ok_symm _ _ _ hcd
                      · rcases hd jc c hcj with ⟨y, hyl0, hyid⟩ | hmap
                        · have hjct : jc = t :=
                            nodup_id_index l0 hids jc t y x' hyl0 hl0t
                              (hyid.trans hidcx)
                          subst hjct
                          have hcx : c = x' := by
                            rw [hent] at hcj
                            exact (Option.some.inj hcj).symm
                          rw [hcx] at hcc
                          rw [hcf] at hcc
                          exact Bool.noConfusion hcc
                        · obtain ⟨ev', hev', hevid⟩ := List.mem_map.1 hmap
                          exact hevcl ev' hev' (hevid.trans hidcx)
                · have hxx : x' = mergeAt entries[k] c := by simpa using hx'
                  rw [hxx, mergeAt_couple] at hcf
                  exact Bool.noConfusion hcf
              · intro ev hev
                rcases List.mem_append.1 hev with hev | hev
                · exact List.mem_cons_of_mem _ (hg ev hev)
                · have hevx : ev = (entries[k], c) := by simpa using hev
                  rw [hevx]
                  exact List.mem_cons_self _ _
        · rw [if_neg hsen] at hrun
          refine ih entries (k + 1) merged (out ++ [entries[k]]) events
            fout fevents ⟨ha, fun t ht => hb t (by omega), hc, hd, ?_, hg⟩ hrun
          intro x hx hcf
          rcases List.mem_append.1 hx with hx | hx
          · obtain ⟨t, ht, rest⟩ := he x hx hcf
            exact ⟨t, by omega, rest⟩
          · have hxx : x = entries[k] := by simpa using hx
            subst hxx
            refine ⟨k, by omega, hl0k, hxk, ?_, ?_⟩
            · intro hcontra
              exact absurd hcontra hsen
            · intro ev hev heq
              exact hmem (heq ▸ hg ev hev)

/-- C3 counterexample: for three well-formed senior records (elder, sister,
elder; same mission, unit and dates), the second elder's companion search
still scans the already-consumed sister, so she is matched as companion of
both surviving elders -- her id is consumed by two matches with two
distinct survivors, refuting both "each record is consumed as a companion
at most once" and "the companion search scans only the remaining (not yet
consumed) entries". -/
theorem merge_companion_reuse_counterexample :
    mergeCoupleEvents [elderAl, sisterBo, elderCy]
      = .ok [(elderAl, sisterBo), (elderCy, sisterBo)]
    ∧ elderAl.id ≠ elderCy.id
    ∧ mergeCoupleMissionaries [elderAl, sisterBo, elderCy]
      = .ok [{ elderAl with name := "Elder Al & Sister Bo Ng", couple := true },
             { elderCy with name := "Elder Cy & Sister Bo Ng", couple := true }] := by
  decide

/-- C3 (amended): couple merging is a single pass in input order whose
companion search scans the entire live list -- including entries already
consumed -- so one record can be matched as companion of more than one
surviving entry; still, for an input with pairwise-distinct ids and the
couple flag initially unset (as the normalizer produces), once a
companion's id has been consumed by a match, that record never appears in
the output as a standalone (couple-free) entry. -/
theorem merge_consumed_not_standalone (l : List Missionary)
    (hids : (l.map (fun m => m.id)).Nodup)
    (_hcouple : ∀ m ∈ l, m.couple = false)
    (out : List Missionary) (evs : List (Missionary × Missionary))
    (hout : mergeCoupleMissionaries l = .ok out)
    (hevs : mergeCoupleEvents l = .ok evs) :
    ∀ x ∈ out, x.couple = false → ∀ ev ∈ evs, ev.2.id ≠ x.id := by
  cases hrun : mergeLoopF l.length l 0 [] [] [] with
  | error e =>
    rw [mergeCoupleMissionaries, hrun] at hout
    exact Except.noConfusion hout
  | ok p =>
    rw [mergeCoupleMissionaries, hrun] at hout
    rw [mergeCoupleEvents, hrun] at hevs
    have hout' : p.1 = out := Except.ok.inj hout
    have hevs' : p.2 = evs := Except.ok.inj hevs
    have hinit : MergeInv l l 0 [] [] [] :=
      ⟨rfl, fun t _ => rfl, fun t x hx => Or.inl hx,
       fun t x hx => Or.inl ⟨x, hx, rfl⟩,
       fun x hx => absurd hx (List.not_mem_nil x),
       fun ev hev => absurd hev (List.not_mem_nil ev)⟩
    rw [← hout', ← hevs']
    exact mergeLoopF_consumed_not_standalone l hids l.length l 0 [] [] []
      p.1 p.2 hinit (by rw [hrun])

/-- A non-senior junior companion of the reuse scenario. -/
def juniorDan : Missionary :=
  { id := 4, name := "Elder Dan Po", sort_name := "Po, Dan", gender := "MALE",
    senior := false, mission := "Mission", home_unit := "Unit",
    dates_serving := "Jul 2024 - Jul 2025" }

/-- Witness for `merge_consumed_not_standalone` on a run with both a
standalone output entry and consumed companions. -/
theorem merge_consumed_not_standalone_witness : sisterBo.id ≠ juniorDan.id :=
  merge_consumed_not_standalone [elderAl, sisterBo, elderCy, juniorDan]
    (by decide) (by decide)
    [{ elderAl with name := "Elder Al & Sister Bo Ng", couple := true },
     { elderCy with name := "Elder Cy & Sister Bo Ng", couple := true },
     juniorDan]
    [(elderAl, sisterBo), (elderCy, sisterBo)]
    (by decide) (by decide) juniorDan (by decide) (by decide)
    (elderCy, sisterBo) (by decide)

/-- Every (survivor, companion) match event of a completed merge run
satisfies the generator's pre-date conditions. -/
theorem mergeLoopF_events_sound :
    ∀ (fuel : Nat) (entries : List Missionary) (k : Nat) (merged : List Int)
      (out : List Missionary) (events : List (Missionary × Missionary))
      (fout : List Missionary) (fevents : List (Missionary × Missionary)),
      (∀ ev ∈ events, companionPre ev.1 ev.2 = true) →
      mergeLoopF fuel entries k merged out events = .ok (fout, fevents) →
      ∀ ev ∈ fevents, companionPre ev.1 ev.2 = true := by
  intro fuel
  induction fuel with
  | zero =>
    intro entries k merged out events fout fevents hev hrun
    rw [mergeLoopF] at hrun
    simp only [Except.ok.injEq, Prod.mk.injEq] at hrun
    exact hrun.2 ▸ hev
  | succ fuel ih =>
    intro entries k merged out events fout fevents hev hrun
    rw [mergeLoopF] at hrun
    by_cases hk : k < entries.length
    case neg =>
      rw [dif_neg hk] at hrun
      simp only [Except.ok.injEq, Prod.mk.injEq] at hrun
      exact hrun.2 ▸ hev
    case pos =>
      rw [dif_pos hk] at hrun
      by_cases hmem : entries[k].id ∈ merged
      · rw [if_pos hmem] at hrun
        exact ih _ _ _ _ _ _ _ hev hrun
      · rw [if_neg hmem] at hrun
        by_cases hsen : entries[k].senior = true
        · rw [if_pos hsen] at hrun
          cases hfind : findCompanion entries[k] entries with
          | error e =>
            rw [hfind] at hrun
            exact Except.noConfusion hrun
          | ok oc =>
            cases oc with
            | none =>
              rw [hfind] at hrun
              exact ih _ _ _ _ _ _ _ hev hrun
            | some c =>
              rw [hfind] at hrun
              refine ih _ _ _ _ _ _ _ ?_ hrun
              intro ev hevm
              rcases List.mem_append.1 hevm with hevm | hevm
              · exact hev ev hevm
              · have hevx : ev = (entries[k], c) := by simpa using hevm
                rw [hevx]
                exact (findCompanion_ok_some entries[k] entries c hfind).1
        · rw [if_neg hsen] at hrun
          exact ih _ _ _ _ _ _ _ hev hrun

/-- C6: two records that differ in mission, differ in home unit, or share
the same gender are never merged with each other -- every match event of
any run pairs records of opposite gender, equal mission and equal home
unit; and on each of the four documented negative cases the merger returns
its input unchanged. -/
theorem merge_non_couple_guard :
    (∀ (l : List Missionary) (evs : List (Missionary × Missionary))
        (s c : Missionary), mergeCoupleEvents l = .ok evs → (s, c) ∈ evs →
        s.gender ≠ c.gender ∧ s.mission = c.mission
          ∧ s.home_unit = c.home_unit)
    ∧ mergeCoupleMissionaries negCaseMissions = .ok negCaseMissions
    ∧ mergeCoupleMissionaries negCaseWards = .ok negCaseWards
    ∧ mergeCoupleMissionaries negCaseTwins = .ok negCaseTwins
    ∧ mergeCoupleMissionaries negCaseFraternal = .ok negCaseFraternal := by
  refine ⟨?_, by decide, by decide, by decide, by decide⟩
  intro l evs s c hok hmem
  cases hrun : mergeLoopF l.length l 0 [] [] [] with
  | error e =>
    rw [mergeCoupleEvents, hrun] at hok
    exact Except.noConfusion hok
  | ok p =>
    rw [mergeCoupleEvents, hrun] at hok
    have hevs : p.2 = evs := Except.ok.inj hok
    have hsound := mergeLoopF_events_sound l.length l 0 [] [] [] p.1 p.2
      (fun ev hev => absurd hev (List.not_mem_nil ev)) (by rw [hrun])
    have hpre := hsound (s, c) (by rw [hevs]; exact hmem)
    obtain ⟨h1, h2, h3, h4, h5⟩ := (companionPre_fields s c).1 hpre
    exact ⟨fun hh => h3 hh.symm, h4.symm, h5.symm⟩

/-- Witness for `merge_non_couple_guard` at the elder/sister match of the
reuse scenario. -/
theorem merge_non_couple_guard_witness :
    elderAl.gender ≠ sisterBo.gender ∧ elderAl.mission = sisterBo.mission
      ∧ elderAl.home_unit = sisterBo.home_unit :=
  merge_non_couple_guard.1 [elderAl, sisterBo, elderCy]
    [(elderAl, sisterBo), (elderCy, sisterBo)] elderAl sisterBo
    (by decide) (by decide)

/-! ## Normalization and the refresh orchestrator
(missionaries.py lines 62-83, 111-177, 179-238, 345-380)

Instants are integer seconds; second 0 is 0001-01-01T00:00 UTC, so the
instant at which the day with ordinal `o` starts is `(o - 1) * 86400`.
`datetime.strptime(..., "%Y%m%d").astimezone()` interprets the parsed
midnight in the machine's local timezone, whose UTC offset is
`tzOffsetSec`.  `datetime.now(UTC)` is `nowSec`; the single `now` value is
used both by the cache policy and the age computation (the wall clock
moves by microseconds between the two reads, which no claim observes). -/

structure Env where
  nowSec : Int
  tzOffsetSec : Int
  deriving DecidableEq, Repr

/-- One raw roster record: the fields of the loosely-typed LCR map that
`_create_missionary` and `_filter` read (absent keys are `none`;
`member.gender` and `member.birthDate` are flattened). -/
structure RawRecord where
  missionaryName : Option String := none
  gender : Option String := none
  startDate : Option String := none
  endDate : Option String := none
  seniorMissionary : Option Bool := none
  birthDate : Option String := none
  missionaryIndividualId : Option Int := none
  missionName : Option String := none
  missionaryHomeUnitName : Option String := none
  status : Option String := none
  deriving DecidableEq, Repr

/-- `datetime.strptime(s, "%Y%m%d")` on the fixed-width eight-digit dates
the roster source uses: four-digit year (nonzero), two-digit month 01-12,
two-digit day valid for the month; anything else raises `ValueError`. -/
def parseYMD (s : String) : Except Exn (Nat × Nat × Nat) :=
  match s.data with
  | [c1, c2, c3, c4, c5, c6, c7, c8] =>
    if [c1, c2, c3, c4, c5, c6, c7, c8].all Char.isDigit then
      let y := ((digitVal c1 * 10 + digitVal c2) * 10 + digitVal c3) * 10
        + digitVal c4
      let m := digitVal c5 * 10 + digitVal c6
      let d := digitVal c7 * 10 + digitVal c8
      if 1 ≤ y ∧ 1 ≤ m ∧ m ≤ 12 ∧ 1 ≤ d ∧ d ≤ daysInMonth y m then
        .ok (y, m, d)
      else .error ⟨"ValueError", "time data does not match format"⟩
    else .error ⟨"ValueError", "time data does not match format"⟩
  | _ => .error ⟨"ValueError", "time data does not match format"⟩

/-- `Missionaries._filter` (lines 231-238): non-empty name and status
`"SERVING"`. -/
def keepRecord (r : RawRecord) : Bool :=
  (match r.missionaryName with
   | some n => decide (n ≠ "")
   | none => false)
  && decide (r.status = some "SERVING")

/-- Lines 191-200: a date field is rendered `"%b %Y"`; a falsy value
(absent key or empty string) yields the empty string; a malformed value
raises. -/
def formatDateField (field : Option String) : Except Exn String :=
  match field with
  | none => .ok ""
  | some s =>
    if s = "" then .ok ""
    else
      match parseYMD s with
      | .error e => .error e
      | .ok (y, m, _) => .ok (renderMonth ⟨m, y⟩)

/-- The instant of the parsed birth date: local midnight of that day. -/
def birthInstantSec (env : Env) (y m d : Nat) : Int :=
  ((toOrdinal y m d : Int) - 1) * 86400 - env.tzOffsetSec

/-- Lines 203-213: the explicit flag is used when truthy; otherwise the
age fallback `(datetime.now(UTC) - birth_date).days // 365 > SENIOR_AGE`
(`timedelta.days` floors, `//` is floor division), false with no birth
date. -/
def computeSenior (env : Env) (r : RawRecord) : Except Exn Bool :=
  match r.seniorMissionary with
  | some true => .ok true
  | _ =>
    match r.birthDate with
    | none => .ok false
    | some b =>
      if b = "" then .ok false
      else
        match parseYMD b with
        | .error e => .error e
        | .ok (y, m, d) =>
          .ok (decide
            (((env.nowSec - birthInstantSec env y m d).fdiv 86400).fdiv 365
              > 40))

/-- Generic left-to-right split on a non-empty separator (Python
`str.split(sep)`), with enough fuel for the whole input. -/
def splitOnAux (sep : List Char) : Nat → List Char → List Char →
    List (List Char)
  | 0, rest, acc => [acc.reverse ++ rest]
  | fuel + 1, rest, acc =>
    match rest with
    | [] => [acc.reverse]
    | c :: t =>
      if sep.isPrefixOf (c :: t) then
        acc.reverse :: splitOnAux sep fuel ((c :: t).drop sep.length) []
      else splitOnAux sep fuel t (c :: acc)

/-- Python `s.split(sep)`. -/
def pySplitOn (sep : String) (s : String) : List String :=
  (splitOnAux sep.data (s.data.length + 1) s.data []).map String.mk

/-- Lines 181-188: `"Last, First"` reversed to `"First Last"` with the
gender honorific. -/
def displayName (r : RawRecord) : String :=
  let base := joinSpace ((pySplitOn ", " (r.missionaryName.getD "")).reverse)
  if r.gender = some "FEMALE" then "Sister " ++ base
  else if r.gender = some "MALE" then "Elder " ++ base
  else base

/-- `Missionaries._create_missionary` (lines 179-229), with the photo scan
as an oracle for `_find_photo`.  The fallible steps run in source order:
start date, end date, senior fallback, photo lookup. -/
def createMissionary (env : Env) (scan : Int → Except Exn String)
    (r : RawRecord) : Except Exn Missionary :=
  match formatDateField r.startDate with
  | .error e => .error e
  | .ok start =>
    match formatDateField r.endDate with
    | .error e => .error e
    | .ok endStr =>
      match computeSenior env r with
      | .error e => .error e
      | .ok senior =>
        match scan (r.missionaryIndividualId.getD 0) with
        | .error e => .error e
        | .ok image_path =>
          .ok { id := r.missionaryIndividualId.getD 0,
                name := displayName r,
                sort_name := r.missionaryName.getD "",
                gender := r.gender.getD "",
                senior := senior,
                mission := r.missionName.getD "",
                dates_serving :=
                  if start ≠ "" ∧ endStr ≠ "" then start ++ " - " ++ endStr
                  else "",
                home_unit := r.missionaryHomeUnitName.getD "",
                image_path := image_path }

/-- `Missionaries._extra_missionaries` (lines 345-380): the extra file's
records run through `_create_missionary`; any failure (loading or
normalizing) is swallowed and yields no extra records. -/
def extraMissionaries (env : Env) (scan : Int → Except Exn String)
    (extraData : Except Exn (List RawRecord)) : List Missionary :=
  match extraData with
  | .error _ => []
  | .ok rs =>
    match rs.mapM (createMissionary env scan) with
    | .error _ => []
    | .ok l => l

/-- Stable insertion into a `sort_name`-sorted list (a stable sort is
pointwise equal to CPython's stable `sorted(..., key=...)`). -/
def sortedInsert (m : Missionary) : List Missionary → List Missionary
  | [] => [m]
  | x :: t =>
    if m.sort_name ≤ x.sort_name then m :: x :: t else x :: sortedInsert m t

/-- `sorted(missionaries, key=lambda m: m.sort_name)` (line 175). -/
def sortBySortName : List Missionary → List Missionary
  | [] => []
  | m :: t => sortedInsert m (sortBySortName t)

/-- The persistent store: the three keys the engine uses
(`missionaries`, `last_refresh`, `refresh_error`), each possibly absent. -/
structure Db where
  missionaries : Option (List Missionary) := none
  lastRefresh : Option Int := none
  refreshError : Option String := none
  deriving DecidableEq, Repr

/-- `Missionaries.get_refresh_error` (lines 104-109). -/
def getRefreshError (db : Db) : String :=
  db.refreshError.getD ""

/-- `Missionaries._needs_refresh` (lines 111-116): more than
`REFRESH_INTERVAL` (2 minutes) since the last refresh; an absent timestamp
reads as `datetime.min`, which any realistic `now` exceeds by far more
than the interval. -/
def needsRefresh (db : Db) (nowSec : Int) : Bool :=
  match db.lastRefresh with
  | some t => decide (nowSec - t > 120)
  | none => true

/-- Lines 126-144: recompute `image_path` and derive `photo_url` (real
photo, else couple placeholder, else gender placeholder). -/
def setPhoto (m : Missionary) (p : String) : Missionary :=
  { m with
    image_path := p,
    photo_url :=
      if p ≠ "" then "/photos/" ++ p
      else if m.couple then "/static/couple.png"
      else if m.gender = "FEMALE" then "/static/sister.png"
      else "/static/elder.png" }

/-- The photo pass over the cached list; a raising scan aborts before
anything is persisted. -/
def photoRefreshList (scan : Int → Except Exn String) :
    List Missionary → Except Exn (List Missionary)
  | [] => .ok []
  | m :: t =>
    match scan m.id with
    | .error e => .error e
    | .ok p =>
      match photoRefreshList scan t with
      | .error e => .error e
      | .ok t' => .ok (setPhoto m p :: t')

/-- `Missionaries._photo_refresh` (lines 118-146): run the photo pass over
the stored list (absent key reads as `[]`) and persist the result. -/
def photoRefresh (scan : Int → Except Exn String) (db : Db) :
    Except Exn Db :=
  match photoRefreshList scan (db.missionaries.getD []) with
  | .error e => .error e
  | .ok ms => .ok { db with missionaries := some ms }

/-- `Missionaries._sync_missionaries` (lines 148-177): fetch, filter and
normalize (in order, first exception aborts), append extra records, merge
couples, sort by `sort_name`, and persist the new roster.  The logging and
photo-percentage computation have no observable effect and are omitted. -/
def syncMissionaries (env : Env) (fetch : Except Exn (List RawRecord))
    (extraData : Except Exn (List RawRecord))
    (scan : Int → Except Exn String) (db : Db) : Except Exn Db :=
  match fetch with
  | .error e => .error e
  | .ok raws =>
    match (raws.filter keepRecord).mapM (createMissionary env scan) with
    | .error e => .error e
    | .ok ms =>
      match mergeCoupleMissionaries (ms ++ extraMissionaries env scan extraData) with
      | .error e => .error e
      | .ok merged =>
        .ok { db with missionaries := some (sortBySortName merged) }

/-- `Missionaries.refresh` (lines 62-83).  The not-due branch runs the
photo pass outside any handler; the due branch runs sync followed by the
photo pass inside `except Exception`, which on failure stores
`f"{type(e).__name__}: {e}"` under the error key and leaves the timestamp
alone, and on success clears the error and stamps `now`.  The two scan
oracles are the photo-directory reads of the two phases. -/
def refresh (env : Env) (db : Db)
    (fetch extraData : Except Exn (List RawRecord))
    (scanSync scanPhoto : Int → Except Exn String) : Except Exn Db :=
  if needsRefresh db env.nowSec = false then photoRefresh scanPhoto db
  else
    match syncMissionaries env fetch extraData scanSync db with
    | .error e => .ok { db with refreshError := some (formatExn e) }
    | .ok db1 =>
      match photoRefresh scanPhoto db1 with
      | .error e => .ok { db1 with refreshError := some (formatExn e) }
      | .ok db2 =>
        .ok { db2 with refreshError := none, lastRefresh := some env.nowSec }

/-! ### Concrete refresh fixtures -/

/-- A photo scan that finds nothing. -/
def scanOk : Int → Except Exn String := fun _ => .ok ""

/-- A photo scan that raises (e.g. the directory read fails). -/
def scanBad : Int → Except Exn String :=
  fun _ => .error ⟨"OSError", "photo scan failed"⟩

/-- A wall clock somewhere in 2023, UTC-6 local offset. -/
def env0 : Env := { nowSec := 63800000000, tzOffsetSec := -21600 }

/-- The previously cached record. -/
def mOld : Missionary :=
  { id := 9, name := "Elder Old Guy", sort_name := "Guy, Old",
    gender := "MALE" }

/-- A store holding roster `[mOld]` that has never synced (due). -/
def db0 : Db := { missionaries := some [mOld] }

/-- A store holding roster `[mOld]` refreshed 100 seconds ago (not due). -/
def dbFresh : Db :=
  { missionaries := some [mOld], lastRefresh := some 63799999900 }

/-- A raw roster record for a new junior sister. -/
def rawAnn : RawRecord :=
  { missionaryName := some "New, Ann", gender := some "FEMALE",
    startDate := some "20240101", endDate := some "20250101",
    missionaryIndividualId := some 5, status := some "SERVING" }

/-- The normalized form of `rawAnn`. -/
def sisterAnn : Missionary :=
  { id := 5, name := "Sister Ann New", sort_name := "New, Ann",
    gender := "FEMALE", senior := false, mission := "",
    dates_serving := "Jan 2024 - Jan 2025", home_unit := "",
    image_path := "", photo_url := "" }

example : createMissionary env0 scanOk rawAnn = .ok sisterAnn := by decide
example : needsRefresh db0 env0.nowSec = true := by decide
example : needsRefresh dbFresh env0.nowSec = false := by decide
example :
    refresh env0 db0 (.ok [rawAnn]) (.ok []) scanOk scanBad
      = .ok { missionaries := some [sisterAnn], lastRefresh := none,
              refreshError := some "OSError: photo scan failed" } := by decide
example :
    refresh env0 dbFresh (.ok []) (.ok []) scanOk scanBad
      = .error ⟨"OSError", "photo scan failed"⟩ := by decide

theorem formatExn_ne_empty (e : Exn) : formatExn e ≠ "" := by
  intro h
  have hlen := congrArg String.length h
  simp [formatExn, String.length_append] at hlen
  exact absurd hlen.1.2 (by decide)

/-- A successful sync only replaces the roster key: timestamp and error
state are untouched (the new roster is already persisted when the
subsequent photo pass runs). -/
theorem syncMissionaries_ok_shape (env : Env)
    (fetch extraData : Except Exn (List RawRecord))
    (scan : Int → Except Exn String) (db db1 : Db)
    (h : syncMissionaries env fetch extraData scan db = .ok db1) :
    ∃ ms, db1 = { db with missionaries := some ms } := by
  unfold syncMissionaries at h
  cases fetch with
  | error e => exact Except.noConfusion h
  | ok raws =>
    cases hm : (raws.filter keepRecord).mapM (createMissionary env scan) with
    | error e =>
      simp only [hm] at h
      exact Except.noConfusion h
    | ok ms =>
      simp only [hm] at h
      cases hg : mergeCoupleMissionaries
          (ms ++ extraMissionaries env scan extraData) with
      | error e =>
        simp only [hg] at h
        exact Except.noConfusion h
      | ok merged =>
        simp only [hg] at h
        exact ⟨sortBySortName merged, (Except.ok.inj h).symm⟩

/-- C1 (amended): on a due cycle, an exception during fetch,
normalization, merging or sorting (i.e. anywhere inside the sync step,
which persists nothing before its final write) leaves the stored roster
and timestamp exactly as they were and records the non-empty error string
`"{ExceptionKind}: {message}"`; an exception during the post-sync photo
pass also records that error string and leaves the timestamp untouched,
but the stored roster is then the newly synced roster, which the sync step
already persisted. -/
theorem refresh_failure_staleness (env : Env) (db : Db)
    (fetch extraData : Except Exn (List RawRecord))
    (s1 s2 : Int → Except Exn String) (e : Exn)
    (hdue : needsRefresh db env.nowSec = true) :
    (syncMissionaries env fetch extraData s1 db = .error e →
      refresh env db fetch extraData s1 s2
        = .ok { db with refreshError := some (formatExn e) }
      ∧ getRefreshError { db with refreshError := some (formatExn e) }
          = formatExn e
      ∧ formatExn e ≠ "")
    ∧ (∀ db1, syncMissionaries env fetch extraData s1 db = .ok db1 →
        photoRefresh s2 db1 = .error e →
        refresh env db fetch extraData s1 s2
          = .ok { db1 with refreshError := some (formatExn e) }
        ∧ (∃ ms, db1 = { db with missionaries := some ms })
        ∧ db1.lastRefresh = db.lastRefresh
        ∧ getRefreshError { db1 with refreshError := some (formatExn e) }
            = formatExn e
        ∧ formatExn e ≠ "") := by
  constructor
  · intro hs
    rw [refresh, if_neg (by simp [hdue]), hs]
    exact ⟨rfl, rfl, formatExn_ne_empty e⟩
  · intro db1 hs hp
    obtain ⟨ms, hms⟩ := syncMissionaries_ok_shape env fetch extraData s1 db db1 hs
    have href : refresh env db fetch extraData s1 s2
        = .ok { db1 with refreshError := some (formatExn e) } := by
      rw [refresh, if_neg (by simp [hdue])]
      simp only [hs, hp]
    exact ⟨href, ⟨ms, hms⟩, by rw [hms], rfl, formatExn_ne_empty e⟩

/-- A sync failure raised by the fetch. -/
def eBoom : Exn := ⟨"RuntimeError", "boom"⟩

/-- Witness for `refresh_failure_staleness`: a failing fetch on a due
cycle stores the formatted error and leaves the cached roster `[mOld]`
and the (absent) timestamp as they were. -/
theorem refresh_failure_staleness_witness :
    refresh env0 db0 (.error eBoom) (.ok []) scanOk scanOk
      = .ok { db0 with refreshError := some (formatExn eBoom) }
    ∧ getRefreshError { db0 with refreshError := some (formatExn eBoom) }
        = formatExn eBoom
    ∧ formatExn eBoom ≠ "" :=
  (refresh_failure_staleness env0 db0 (.error eBoom) (.ok []) scanOk scanOk
    eBoom (by decide)).1 (by decide)

/-- C1 counterexample: on a due cycle with cached roster `[mOld]`, a fetch
that succeeds followed by a photo pass that raises leaves the *new* roster
`[sisterAnn]` in the store (the sync step persisted it before the
exception), not the previous roster -- while the error is recorded and the
timestamp is unchanged.  The claim's "stored roster is still exactly R"
fails for the photo-attachment stage. -/
def dbPhotoFail : Db :=
  { missionaries := some [sisterAnn], lastRefresh := none,
    refreshError := some "OSError: photo scan failed" }

theorem refresh_failure_staleness_counterexample :
    needsRefresh db0 env0.nowSec = true
    ∧ refresh env0 db0 (.ok [rawAnn]) (.ok []) scanOk scanBad = .ok dbPhotoFail
    ∧ dbPhotoFail.missionaries ≠ db0.missionaries
    ∧ dbPhotoFail.lastRefresh = db0.lastRefresh
    ∧ getRefreshError dbPhotoFail = "OSError: photo scan failed" := by
  decide

/-- C4 (amended): on a due cycle `refresh` never raises -- every exception
from the sync step or the photo pass is swallowed into the error key; but
on a not-due cycle `refresh` is exactly the unguarded photo pass, so an
exception raised there propagates to the caller. -/
theorem refresh_exception_containment (env : Env) (db : Db)
    (fetch extraData : Except Exn (List RawRecord))
    (s1 s2 : Int → Except Exn String) :
    (needsRefresh db env.nowSec = true →
      ∃ db', refresh env db fetch extraData s1 s2 = .ok db')
    ∧ (needsRefresh db env.nowSec = false →
      refresh env db fetch extraData s1 s2 = photoRefresh s2 db) := by
  constructor
  · intro hdue
    rw [refresh, if_neg (by simp [hdue])]
    cases hs : syncMissionaries env fetch extraData s1 db with
    | error e =>
      refine ⟨{ db with refreshError := some (formatExn e) }, ?_⟩
      simp only [hs]
    | ok db1 =>
      cases hp : photoRefresh s2 db1 with
      | error e =>
        refine ⟨{ db1 with refreshError := some (formatExn e) }, ?_⟩
        simp only [hs, hp]
      | ok db2 =>
        refine
          ⟨{ db2 with refreshError := none, lastRefresh := some env.nowSec },
           ?_⟩
        simp only [hs, hp]
  · intro hdue
    rw [refresh, if_pos (by simp [hdue])]

/-- Witness for `refresh_exception_containment`: the due branch returns
normally even when both oracles fail. -/
theorem refresh_exception_containment_witness :
    ∃ db', refresh env0 db0 (.error eBoom) (.ok []) scanBad scanBad
      = .ok db' :=
  (refresh_exception_containment env0 db0 (.error eBoom) (.ok []) scanBad
    scanBad).1 (by decide)

/-- C4 counterexample: on a not-due cycle the photo pass runs outside the
`except Exception` handler, so a raising photo scan propagates out of
`refresh` to its caller. -/
theorem refresh_raises_counterexample :
    needsRefresh dbFresh env0.nowSec = false
    ∧ refresh env0 dbFresh (.ok []) (.ok []) scanOk scanBad
        = .error ⟨"OSError", "photo scan failed"⟩ := by
  decide

/-- Pointwise specification of the photo pass: same length, and each entry
is its input entry with only the photo fields recomputed from the scan. -/
theorem photoRefreshList_spec (scan : Int → Except Exn String) :
    ∀ (l l' : List Missionary), photoRefreshList scan l = .ok l' →
      l'.length = l.length
      ∧ ∀ (i : Nat) (mi mi' : Missionary), l[i]? = some mi →
          l'[i]? = some mi' → ∃ p, scan mi.id = .ok p ∧ mi' = setPhoto mi p := by
  intro l
  induction l with
  | nil =>
    intro l' h
    rw [photoRefreshList] at h
    have hl' : l' = [] := (Except.ok.inj h).symm
    subst hl'
    exact ⟨rfl, fun i mi mi' hmi _ => by simp at hmi⟩
  | cons m t ih =>
    intro l' h
    rw [photoRefreshList] at h
    cases hscan : scan m.id with
    | error e =>
      rw [hscan] at h
      exact Except.noConfusion h
    | ok p =>
      rw [hscan] at h
      cases ht : photoRefreshList scan t with
      | error e =>
        rw [ht] at h
        exact Except.noConfusion h
      | ok t' =>
        rw [ht] at h
        have hl' : l' = setPhoto m p :: t' := (Except.ok.inj h).symm
        subst hl'
        obtain ⟨hlen, hpt⟩ := ih t' ht
        refine ⟨by simp [hlen], ?_⟩
        intro i mi mi' hmi hmi'
        cases i with
        | zero =>
          simp only [List.getElem?_cons_zero] at hmi hmi'
          exact ⟨p, (Option.some.inj hmi) ▸ hscan,
            by rw [← Option.some.inj hmi', ← Option.some.inj hmi]⟩
        | succ i =>
          simp only [List.getElem?_cons_succ] at hmi hmi'
          exact hpt i mi mi' hmi hmi'

/-- C7: when a full resync is not due, `refresh` ignores the roster source
and the sync oracle entirely (no network fetch), equals the bare photo
pass, and on success leaves the timestamp, the error state, the list
length and order, and every non-photo field of every record unchanged,
recomputing only `image_path` and `photo_url` (real photo path, else
couple placeholder, else gender placeholder). -/
theorem photo_only_refresh_frame (env : Env) (db : Db) (l : List Missionary)
    (fetch fetch' extraData extraData' : Except Exn (List RawRecord))
    (s1 s1' scan : Int → Except Exn String)
    (hdue : needsRefresh db env.nowSec = false)
    (hl : db.missionaries = some l) :
    refresh env db fetch extraData s1 scan
      = refresh env db fetch' extraData' s1' scan
    ∧ refresh env db fetch extraData s1 scan = photoRefresh scan db
    ∧ (∀ db', refresh env db fetch extraData s1 scan = .ok db' →
        db'.lastRefresh = db.lastRefresh
        ∧ db'.refreshError = db.refreshError
        ∧ ∃ l', db'.missionaries = some l' ∧ l'.length = l.length
          ∧ ∀ (i : Nat) (mi mi' : Missionary), l[i]? = some mi →
              l'[i]? = some mi' → ∃ p, scan mi.id = .ok p ∧ mi' = setPhoto mi p)
    ∧ (∀ (m : Missionary) (p : String),
        (setPhoto m p).id = m.id ∧ (setPhoto m p).name = m.name
        ∧ (setPhoto m p).sort_name = m.sort_name
        ∧ (setPhoto m p).gender = m.gender
        ∧ (setPhoto m p).couple = m.couple
        ∧ (setPhoto m p).senior = m.senior
        ∧ (setPhoto m p).mission = m.mission
        ∧ (setPhoto m p).dates_serving = m.dates_serving
        ∧ (setPhoto m p).home_unit = m.home_unit
        ∧ (setPhoto m p).image_path = p
        ∧ (setPhoto m p).photo_url =
            (if p ≠ "" then "/photos/" ++ p
             else if m.couple then "/static/couple.png"
             else if m.gender = "FEMALE" then "/static/sister.png"
             else "/static/elder.png")) := by
  have hphoto : ∀ (f x : Except Exn (List RawRecord))
      (s : Int → Except Exn String),
      refresh env db f x s scan = photoRefresh scan db := by
    intro f x s
    rw [refresh, if_pos hdue]
  refine ⟨by rw [hphoto, hphoto], hphoto fetch extraData s1, ?_,
    fun m p => ⟨rfl, rfl, rfl, rfl, rfl, rfl, rfl, rfl, rfl, rfl, rfl⟩⟩
  intro db' hdb'
  rw [hphoto, photoRefresh] at hdb'
  cases hlist : photoRefreshList scan (db.missionaries.getD []) with
  | error e =>
    rw [hlist] at hdb'
    exact Except.noConfusion hdb'
  | ok ms =>
    rw [hlist] at hdb'
    have hshape : db' = { db with missionaries := some ms } :=
      (Except.ok.inj hdb').symm
    subst hshape
    rw [hl] at hlist
    obtain ⟨hlen, hpt⟩ := photoRefreshList_spec scan l ms hlist
    exact ⟨rfl, rfl, ms, rfl, hlen, hpt⟩

/-- Witness for `photo_only_refresh_frame`: a not-due store is unaffected
by the choice of roster source. -/
theorem photo_only_refresh_frame_witness :
    refresh env0 dbFresh (.ok [rawAnn]) (.ok []) scanOk scanOk
      = refresh env0 dbFresh (.error eBoom) (.ok []) scanBad scanOk :=
  (photo_only_refresh_frame env0 dbFresh [mOld] (.ok [rawAnn]) (.error eBoom)
    (.ok []) (.ok []) scanOk scanBad scanOk (by decide) (by decide)).1

/-- The senior flag of a normalized record is exactly what
`computeSenior` produced. -/
theorem createMissionary_senior (env : Env) (scan : Int → Except Exn String)
    (r : RawRecord) (m : Missionary)
    (h : createMissionary env scan r = .ok m) :
    computeSenior env r = .ok m.senior := by
  rw [createMissionary] at h
  cases h1 : formatDateField r.startDate with
  | error e =>
    rw [h1] at h
    exact Except.noConfusion h
  | ok start =>
    rw [h1] at h
    cases h2 : formatDateField r.endDate with
    | error e =>
      rw [h2] at h
      exact Except.noConfusion h
    | ok endStr =>
      rw [h2] at h
      cases h3 : computeSenior env r with
      | error e =>
        rw [h3] at h
        exact Except.noConfusion h
      | ok senior =>
        rw [h3] at h
        cases h4 : scan (r.missionaryIndividualId.getD 0) with
        | error e =>
          rw [h4] at h
          exact Except.noConfusion h
        | ok image_path =>
          rw [h4] at h
          have hm := Except.ok.inj h
          rw [← hm]

/-- C8: during normalization, a record whose explicit `seniorMissionary`
flag is absent or falsy gets its senior flag from the birth date as
`(now - birth_date).days // 365 > 40` (floor division), and `false` when
no birth date is present; a present-and-truthy flag is used directly. -/
theorem senior_fallback_spec (env : Env) (scan : Int → Except Exn String)
    (r : RawRecord) (m : Missionary)
    (h : createMissionary env scan r = .ok m) :
    (r.seniorMissionary = some true → m.senior = true)
    ∧ (r.seniorMissionary ≠ some true →
        ((r.birthDate = none ∨ r.birthDate = some "") → m.senior = false)
        ∧ (∀ (b : String) (y mo d : Nat), r.birthDate = some b → b ≠ "" →
            parseYMD b = .ok (y, mo, d) →
            m.senior = decide
              (((env.nowSec - birthInstantSec env y mo d).fdiv 86400).fdiv 365
                > 40))) := by
  have hsen := createMissionary_senior env scan r m h
  constructor
  · intro ht
    rw [computeSenior, ht] at hsen
    exact (Except.ok.inj hsen).symm
  · intro hnt
    have harm : computeSenior env r
        = (match r.birthDate with
           | none => .ok false
           | some b =>
             if b = "" then .ok false
             else
               match parseYMD b with
               | .error e => .error e
               | .ok (y, m, d) =>
                 .ok (decide
                   (((env.nowSec - birthInstantSec env y m d).fdiv 86400).fdiv
                      365 > 40))) := by
      rw [computeSenior]
      cases hsm : r.seniorMissionary with
      | none => rfl
      | some b =>
        cases b with
        | true => exact absurd hsm hnt
        | false => rfl
    rw [harm] at hsen
    constructor
    · intro hbd
      rcases hbd with hbd | hbd <;> rw [hbd] at hsen
      · exact (Except.ok.inj hsen).symm
      · simp only [if_pos rfl] at hsen
        exact (Except.ok.inj hsen).symm
    · intro b y mo d hb hbne hparse
      simp only [hb, if_neg hbne, hparse] at hsen
      exact (Except.ok.inj hsen).symm

/-- Witness for `senior_fallback_spec`: `rawAnn` has no explicit flag and
no birth date, so she is not senior. -/
theorem senior_fallback_spec_witness : sisterAnn.senior = false :=
  ((senior_fallback_spec env0 scanOk rawAnn sisterAnn (by decide)).2
    (by decide)).1 (Or.inl rfl)
